import Mathlib

/-!
Verification development for the `latte` workload generator core
(`src/scripting/row_distribution.rs` and `src/scripting/alternator/functions.rs`).

Modelling conventions:
* `u64` values are modelled as `Nat`.  Subtractions that the source performs on
  `u64` are modelled with truncated `Nat` subtraction; wherever a theorem relies
  on a subtraction, the proofs establish that no underflow occurs.  Operations
  that abort in Rust (integer division or remainder by zero, slice index out of
  bounds, checked underflow in debug builds, the explicit fatal branches) are
  modelled as distinguished non-`ok` outcomes (`none` / `InitOutcome.fatal`).
* `f64` values are modelled by exact fractions (`F64`, a numerator/denominator
  pair of integers).  All concrete computations the claims exercise stay inside
  the range where `f64` arithmetic is exact, so the exact-fraction semantics
  agrees with the source there.  `NaN`/infinity literals are not representable
  and are treated as parse failures.
* Rust `HashMap` iteration order is unspecified; the model keeps entries in
  insertion order (an association list).  All quantities the claims mention are
  either order independent or re-sorted by the source before use.
* Strings are processed as their character lists (`String.data`).
-/

namespace Latte

/-! ### Data model (`row_distribution.rs`, lines 9-30) -/

structure PartitionGroup where
  n_rows_per_group : Nat
  n_partitions : Nat
  n_rows_per_partition : Nat
deriving DecidableEq, Repr

structure RowDistribution where
  n_cycles : Nat
  n_rows_for_left : Nat
  n_rows_for_right : Nat
  n_rows_for_left_and_right : Nat
  n_rows_for_all_cycles : Nat
deriving DecidableEq, Repr

structure RowDistributionPreset where
  total_rows : Nat
  partition_groups : List PartitionGroup
  row_distributions : List (RowDistribution × RowDistribution)
deriving DecidableEq, Repr

/-- `RowDistributionPreset::new` (lines 33-40). -/
def RowDistributionPreset.new (partition_groups : List PartitionGroup) : RowDistributionPreset :=
  { total_rows := (partition_groups.map (fun pg => pg.n_rows_per_group)).sum
    partition_groups := partition_groups
    row_distributions := [] }

/-! ### `gcd` (lines 436-442)

The source recursion terminates because the second argument strictly
decreases; the model uses an explicit fuel argument (`n2 + 1` steps always
suffice) so that the definition computes by kernel reduction. -/

def gcdAux : Nat → Nat → Nat → Nat
  | 0, n1, _ => n1
  | fuel + 1, n1, n2 => if n2 = 0 then n1 else gcdAux fuel n2 (n1 % n2)

def gcd (n1 n2 : Nat) : Nat := gcdAux (n2 + 1) n1 n2

/-! ### `max_gcd_with_tail` (lines 447-484) -/

/-- Loop body of the first `for` loop (lines 461-469): try to split `n1`. -/
def maxGcdWithTailStep1 (n1 n2 : Nat) (st : Nat × (Nat × Nat) × (Nat × Nat)) (tail_n1 : Nat) :
    Nat × (Nat × Nat) × (Nat × Nat) :=
  let head_n1 := n1 - tail_n1
  let gcd_value := gcd head_n1 n2
  if st.1 < gcd_value then (gcd_value, (head_n1 / gcd_value, tail_n1), (n2 / gcd_value, 0))
  else st

/-- Loop body of the second `for` loop (lines 473-481): try to split `n2`. -/
def maxGcdWithTailStep2 (n1 n2 : Nat) (st : Nat × (Nat × Nat) × (Nat × Nat)) (tail_n2 : Nat) :
    Nat × (Nat × Nat) × (Nat × Nat) :=
  let head_n2 := n2 - tail_n2
  let gcd_value := gcd n1 head_n2
  if st.1 < gcd_value then (gcd_value, (n1 / gcd_value, 0), (head_n2 / gcd_value, tail_n2))
  else st

/-- `max_gcd_with_tail` (lines 447-484).  The ranges `0..=n/100` become
`List.range (n / 100 + 1)`. -/
def max_gcd_with_tail (n1 n2 : Nat) : Nat × (Nat × Nat) × (Nat × Nat) :=
  let st1 := (List.range (n1 / 100 + 1)).foldl (maxGcdWithTailStep1 n1 n2) (0, (0, 0), (0, 0))
  (List.range (n2 / 100 + 1)).foldl (maxGcdWithTailStep2 n1 n2) st1

/-! ### `generate_row_distributions` (lines 42-77) -/

/-- Body of one iteration of the loop in `generate_row_distributions`
(lines 50-75): build the two cycle types for one partition group. -/
def mkRowDistributionPair (n_rows other_rows : Nat) : RowDistribution × RowDistribution :=
  match max_gcd_with_tail n_rows other_rows with
  | (cycles_num, (mult_n1, tail_n1), (mult_n2, tail_n2)) =>
    let ct1_cycles := tail_n1 + tail_n2
    let ct1_left := mult_n1 + (if 0 < tail_n1 then 1 else 0)
    let ct1_right := mult_n2 + (if 0 < tail_n2 then 1 else 0)
    let ct2_cycles := cycles_num - tail_n1 - tail_n2
    ({ n_cycles := ct1_cycles
       n_rows_for_left := ct1_left
       n_rows_for_right := ct1_right
       n_rows_for_left_and_right := ct1_left + ct1_right
       n_rows_for_all_cycles := ct1_cycles * ct1_left + ct1_cycles * ct1_right },
     { n_cycles := ct2_cycles
       n_rows_for_left := mult_n1
       n_rows_for_right := mult_n2
       n_rows_for_left_and_right := mult_n1 + mult_n2
       n_rows_for_all_cycles := ct2_cycles * mult_n1 + ct2_cycles * mult_n2 })

/-- The loop of `generate_row_distributions` (lines 43-76): `other_rows`
starts at `total_rows` and each iteration first subtracts the current group
(line 49). -/
def generateRowDistributionsAux (other_rows : Nat) :
    List PartitionGroup → List (RowDistribution × RowDistribution)
  | [] => []
  | pg :: rest =>
    let other_rows2 := other_rows - pg.n_rows_per_group
    mkRowDistributionPair pg.n_rows_per_group other_rows2 ::
      generateRowDistributionsAux other_rows2 rest

/-- `generate_row_distributions` (lines 42-77); the source pushes onto the
(initially empty) `row_distributions` vector. -/
def RowDistributionPreset.generate_row_distributions (p : RowDistributionPreset) :
    RowDistributionPreset :=
  { p with
    row_distributions :=
      p.row_distributions ++ generateRowDistributionsAux p.total_rows p.partition_groups }

/-! ### `_get_partition_info` (lines 91-168)

The loop body for one partition group.  Outcomes: `none` models a Rust abort
(division or remainder by zero inside the arithmetic); `Sum.inl` models the
two `return` statements (the value still has the group-local form, the caller
adds `partn_offset`); `Sum.inr` models falling through to the next group with
the adjusted `idx` (lines 158-161). -/
def groupStep (current_partn : PartitionGroup) (cycle_type_1 cycle_type_2 : RowDistribution)
    (idx : Nat) : Option ((Nat × Nat) ⊕ Nat) :=
  let current_partn_count := current_partn.n_partitions
  let cycle_type_1_size := cycle_type_1.n_rows_for_left_and_right
  if idx < cycle_type_1.n_rows_for_all_cycles then
    if cycle_type_1_size = 0 then none
    else
      let done_cycle_type_1_num := (idx + cycle_type_1.n_rows_for_right) / cycle_type_1_size
      let done_cycle_type_1_rows := done_cycle_type_1_num * cycle_type_1_size
      if done_cycle_type_1_rows ≤ idx ∧
          idx < cycle_type_1.n_rows_for_left + done_cycle_type_1_rows then
        if current_partn_count = 0 then none
        else
          some (Sum.inl
            ((idx - done_cycle_type_1_rows +
                done_cycle_type_1_num * cycle_type_1.n_rows_for_left) % current_partn_count,
             current_partn.n_rows_per_partition))
      else
        some (Sum.inr (idx - done_cycle_type_1_num * cycle_type_1.n_rows_for_left))
  else
    let done_cycle_type_1_num := cycle_type_1.n_cycles
    let done_cycle_type_1_rows := done_cycle_type_1_num * cycle_type_1_size
    let cycle_type_2_size := cycle_type_2.n_rows_for_left_and_right
    if cycle_type_2_size = 0 then none
    else
      let done_cycle_type_2_num :=
        (idx - done_cycle_type_1_rows + cycle_type_2.n_rows_for_right) / cycle_type_2_size
      let done_cycle_type_2_rows := done_cycle_type_2_num * cycle_type_2_size
      let total_done_rows := done_cycle_type_1_rows + done_cycle_type_2_rows
      if total_done_rows ≤ idx ∧ idx < total_done_rows + cycle_type_2.n_rows_for_left then
        if current_partn_count = 0 then none
        else
          some (Sum.inl
            ((idx - done_cycle_type_1_num * cycle_type_1.n_rows_for_right -
                done_cycle_type_2_rows +
                done_cycle_type_2_num * cycle_type_2.n_rows_for_left) % current_partn_count,
             current_partn.n_rows_per_partition))
      else
        some (Sum.inr
          (idx - done_cycle_type_1_num * cycle_type_1.n_rows_for_left -
            done_cycle_type_2_num * cycle_type_2.n_rows_for_left))

/-- The loop of `_get_partition_info` (lines 104-162); exhausting all groups
reaches the fatal branch (lines 163-167), modelled as `none`, as are the
fatal empty-input checks (lines 98-103) and an out-of-bounds
`row_distributions[loop_i]` access (line 107). -/
def getPartitionInfoLoop :
    Nat → Nat → List PartitionGroup → List (RowDistribution × RowDistribution) →
    Option (Nat × Nat)
  | _, _, [], _ => none
  | _, _, _ :: _, [] => none
  | idx, partn_offset, pg :: grest, cts :: drest =>
    match groupStep pg cts.1 cts.2 idx with
    | none => none
    | some (Sum.inl (q, rows)) => some (partn_offset + q, rows)
    | some (Sum.inr idx2) => getPartitionInfoLoop idx2 (partn_offset + pg.n_partitions) grest drest

/-- `get_partition_info` (lines 81-89): reduce the index modulo `total_rows`
(a remainder by zero aborts, modelled as `none`) and walk the groups. -/
def RowDistributionPreset.get_partition_info (p : RowDistributionPreset) (idx : Nat) :
    Option (Nat × Nat) :=
  if p.total_rows = 0 then none
  else getPartitionInfoLoop (idx % p.total_rows) 0 p.partition_groups p.row_distributions

/-- Sum of `n_partitions` over all partition groups of a preset. -/
def totalPartitions (gs : List PartitionGroup) : Nat :=
  (gs.map (fun pg => pg.n_partitions)).sum

/-- Sum of `n_rows_per_group` over a list of partition groups. -/
def sumRows (gs : List PartitionGroup) : Nat :=
  (gs.map (fun pg => pg.n_rows_per_group)).sum

/-- Partition-index offset of group `i`: the partitions of earlier groups. -/
def offsetUpTo (gs : List PartitionGroup) (i : Nat) : Nat :=
  ((gs.take i).map (fun pg => pg.n_partitions)).sum

/-! ### Error kinds (`alternator/alternator_error.rs`, lines 10-22)

`row_distribution.rs` imports these through the `db_error` alias
(`pub type DbErrorKind = AlternatorErrorKind`). -/

inductive AlternatorErrorKind where
  | FailedToConnect (addr msg : String)
  | QueryRetriesExceeded (msg : String)
  | Overloaded (msg : String)
  | PartitionRowPresetNotFound (msg : String)
  | CustomError (msg : String)
  | Error (msg : String)
  | SdkError (msg : String)
  | BadInput (msg : String)
  | ConversionError (msg : String)
  | ValidationError (msg : String)
deriving DecidableEq, Repr

abbrev DbErrorKind := AlternatorErrorKind

/-! ### `f64` model

Exact fractions: a numerator/denominator pair of integers, with the
arithmetic the constructor pipeline performs.  All pipeline values stay in
ranges where `f64` arithmetic is exact, so exact fractions are a faithful
stand-in there; `NaN` and the infinities are not representable (parsing such
literals is treated as failure, a documented model limitation). -/

structure F64 where
  num : Int
  den : Int
deriving DecidableEq, Repr

def F64.ofNat (n : Nat) : F64 := ⟨n, 1⟩

def F64.add (a b : F64) : F64 := ⟨a.num * b.den + b.num * a.den, a.den * b.den⟩

def F64.sub (a b : F64) : F64 := ⟨a.num * b.den - b.num * a.den, a.den * b.den⟩

def F64.mul (a b : F64) : F64 := ⟨a.num * b.num, a.den * b.den⟩

def F64.div (a b : F64) : F64 := ⟨a.num * b.den, a.den * b.num⟩

def F64.abs (a : F64) : F64 := ⟨|a.num|, |a.den|⟩

/-- Strict comparison; faithful to `f64` comparison whenever both
denominators are positive, which holds for every comparison the pipeline
performs. -/
def F64.blt (a b : F64) : Bool := decide (a.num * b.den < b.num * a.den)

/-- Rust `as u64` on a finite `f64`: truncate toward zero and clamp below at
zero.  (The clamp at `u64::MAX` is irrelevant for the pipeline's ranges and
is not modelled; division by an exactly-zero cycle size is special-cased at
its single use site.) -/
def F64.toU64 (a : F64) : Nat :=
  if 0 < a.num * a.den then a.num.natAbs / a.den.natAbs else 0

/-- Rust `f64::round`: round half away from zero. -/
def f64Round (a : F64) : Int :=
  let n := a.num.natAbs
  let d := a.den.natAbs
  let m : Int := ((2 * n + d) / (2 * d) : Nat)
  if 0 ≤ a.num * a.den then m else -m

/-! ### Parsing and formatting of `f64` literals

`str::parse::<f64>` accepts `[sign] (digits [. digits] | . digits) [e/E
[sign] digits]` (plus `inf`/`NaN` forms, not representable here).  The
pipeline's literals are exact decimals, for which the fraction produced
below is exactly the parsed `f64` value. -/

def takeDigits : Nat → Nat → List Char → Nat × Nat × List Char
  | v, n, [] => (v, n, [])
  | v, n, c :: cs =>
    if c.isDigit then takeDigits (v * 10 + (c.toNat - 48)) (n + 1) cs else (v, n, c :: cs)

def parseSign : List Char → Int × List Char
  | '+' :: r => (1, r)
  | '-' :: r => (-1, r)
  | l => (1, l)

def parseExponent (num den : Int) (r : List Char) : Option F64 :=
  let (esgn, r1) := parseSign r
  let (ev, ne, r2) := takeDigits 0 0 r1
  if ne = 0 then none
  else
    match r2 with
    | [] => some (if esgn = 1 then ⟨num * 10 ^ ev, den⟩ else ⟨num, den * 10 ^ ev⟩)
    | _ => none

def parseF64 (l : List Char) : Option F64 :=
  let (sgn, l1) := parseSign l
  let (ip, ni, l2) := takeDigits 0 0 l1
  match l2 with
  | '.' :: r =>
    let (fp, nf, l3) := takeDigits 0 0 r
    if ni + nf = 0 then none
    else
      let num : Int := sgn * (ip * 10 ^ nf + fp)
      let den : Int := 10 ^ nf
      match l3 with
      | [] => some ⟨num, den⟩
      | 'e' :: r2 => parseExponent num den r2
      | 'E' :: r2 => parseExponent num den r2
      | _ => none
  | _ =>
    if ni = 0 then none
    else
      match l2 with
      | [] => some ⟨sgn * ip, 1⟩
      | 'e' :: r2 => parseExponent (sgn * ip) 1 r2
      | 'E' :: r2 => parseExponent (sgn * ip) 1 r2
      | _ => none

/-- Decimal expansion of a proper fraction, fuelled (terminates early at a
zero remainder, so no trailing zeros are produced). -/
def fracDigits : Nat → Nat → Nat → List Char
  | _, _, 0 => []
  | num, den, fuel + 1 =>
    if num = 0 then []
    else
      let num10 := num * 10
      Char.ofNat (48 + num10 / den) :: fracDigits (num10 % den) den fuel

/-- Rust `Display` for a finite `f64` (the shortest decimal that round
trips); on the exactly-representable decimal values the pipeline handles
this is the minimal decimal form of the fraction. -/
def F64.fmt (a : F64) : List Char :=
  let sgnChars : List Char := if a.num * a.den < 0 then ['-'] else []
  let n := a.num.natAbs
  let d := a.den.natAbs
  let g := Nat.gcd n d
  let n1 := n / g
  let d1 := d / g
  let ipart := n1 / d1
  let fpart := n1 % d1
  sgnChars ++ (Nat.repr ipart).data ++
    (if fpart = 0 then [] else '.' :: fracDigits fpart d1 64)

/-! ### String helpers (Rust `str::split` / `str::replace`) -/

/-- Rust `split(c)`: `"a:" → ["a", ""]`, `"" → [""]`. -/
def splitOnChar (c : Char) : List Char → List (List Char)
  | [] => [[]]
  | x :: xs =>
    match splitOnChar c xs with
    | r :: rs => if x = c then [] :: r :: rs else (x :: r) :: rs
    | [] => [[]]

/-! ### `_init_partition_row_distribution_preset` (lines 217-419) -/

/-- Association-list lookup (models `HashMap::get`). -/
def assocFind {α : Type} : List (List Char × α) → List Char → Option α
  | [], _ => none
  | (k0, v0) :: rest, k => if k0 = k then some v0 else assocFind rest k

/-- Association-list insert (models `HashMap::insert`: replace the value if
the key is present, the model keeps entries in insertion order). -/
def assocInsert {α : Type} : List (List Char × α) → List Char → α → List (List Char × α)
  | [], k, v => [(k, v)]
  | (k0, v0) :: rest, k, v =>
    if k0 = k then (k, v) :: rest else (k0, v0) :: assocInsert rest k v

/-- The parsing loop over the comma-separated pairs (lines 246-270).
State: remaining pairs, `duplicates_dump`, `partn_multipliers` (association
list), `summary_percentage`.  A pair without a `:` separator falls out of
the `if let` and is silently skipped. -/
def parsePairsLoop :
    List (List Char) → List (List Char) → List (List Char × F64 × F64) → F64 →
    Except AlternatorErrorKind (List (List Char × F64 × F64) × F64)
  | [], _, acc, s => .ok (acc, s)
  | pair :: rest, dump, acc, s =>
    let processed_pair := pair.filter (fun c => c ≠ ' ')
    if processed_pair ∈ dump then
      .error (.Error ("init_partition_row_distribution_preset: found duplicates pairs - '" ++
        String.mk processed_pair ++ "'"))
    else
      let parts := splitOnChar ':' processed_pair
      match parts.get? 0, parts.get? 1 with
      | some key, some value =>
        match parseF64 key, parseF64 value with
        | some k, some v =>
          let current_pair_key := F64.fmt k ++ ':' :: F64.fmt v
          parsePairsLoop rest (dump ++ [current_pair_key])
            (assocInsert acc current_pair_key (k, v)) (F64.add s k)
        | _, _ =>
          .error (.Error ("init_partition_row_distribution_preset: Wrong sub-value provided " ++
            "in the 'rows_per_partitions_groups' parameter: '" ++ String.mk processed_pair ++
            "'. It must be set of integer pairs separated with a ':' symbol. " ++
            "Example: '49.1:1,49:2,1.9:2.5'"))
      | _, _ => parsePairsLoop rest dump acc s

/-- `partn_sizes` (lines 282-293): `(base as f64 * multiplier) as u64` per pair. -/
def partnSizesOf (base : Nat) (pm : List (List Char × F64 × F64)) :
    List (List Char × F64 × Nat) :=
  pm.map (fun e => (e.1, e.2.1, F64.toU64 (F64.mul (F64.ofNat base) e.2.2)))

/-- `partn_cycle_size` (lines 281-293): sum of `base * multiplier * percent / 100`. -/
def partnCycleSizeOf (base : Nat) (pm : List (List Char × F64 × F64)) : F64 :=
  pm.foldl
    (fun s e =>
      F64.add s (F64.div (F64.mul (F64.mul (F64.ofNat base) e.2.2) e.2.1) (F64.ofNat 100)))
    (F64.ofNat 0)

/-- `partn_count` (line 294): `(row_count as f64 / partn_cycle_size) as u64`.
A zero cycle size makes the `f64` division produce infinity, which `as u64`
saturates to `u64::MAX`. -/
def partnCountOf (row_count : Nat) (cycle : F64) : Nat :=
  if cycle.num = 0 then 2 ^ 64 - 1
  else F64.toU64 (F64.div (F64.ofNat row_count) cycle)

/-- `partn_counts` (lines 295-298): `(partn_count as f64 * percent / 100) as u64`. -/
def partnCountsOf (pm : List (List Char × F64 × F64)) (partn_count : Nat) :
    List (List Char × F64 × Nat) :=
  pm.map (fun e => (e.1, e.2.1, F64.toU64 (F64.div (F64.mul (F64.ofNat partn_count) e.2.1)
    (F64.ofNat 100))))

/-- One `partitions` entry: `(percent, count, size, multiplier)` as in the
source tuple `(f64, u64, u64, f64)`. -/
abbrev Part4 := F64 × Nat × Nat × F64

/-- Row total of a `partitions` vector: sum of `count * size` over the
entries (the quantity `actual_row_count` tracks). -/
def partsSum (parts : List Part4) : Nat :=
  (parts.map (fun q => q.2.1 * q.2.2.1)).sum

/-- The combine loop (lines 301-311): collect `(percent, count, size,
multiplier)` tuples and accumulate `actual_row_count`; a missing key is
silently skipped (it cannot occur: the three maps share their keys). -/
def combinePartitions (partn_counts partn_sizes : List (List Char × F64 × Nat))
    (pm : List (List Char × F64 × F64)) : List Part4 × Nat :=
  partn_counts.foldl
    (fun acc e =>
      match assocFind partn_sizes e.1, assocFind pm e.1 with
      | some sz, some kv => (acc.1 ++ [(kv.1, e.2.2, sz.2, kv.2)], acc.2 + e.2.2 * sz.2)
      | _, _ => acc)
    ([], 0)

/-- Sort order of `partitions.sort_by(|a, b| b.1.cmp(&a.1).then(b.2.cmp(&a.2)))`
(lines 312 and 361): descending by `(count, size)` lexicographically;
`a` sorts no later than `b` exactly when this relation holds.  Rust's
`sort_by` is stable, as is `List.insertionSort`. -/
def partitionsOrder (a b : Part4) : Prop :=
  b.2.1 < a.2.1 ∨ (b.2.1 = a.2.1 ∧ b.2.2.1 ≤ a.2.2.1)

instance : DecidableRel partitionsOrder := fun a b => by
  unfold partitionsOrder; exact inferInstance

/-- Checked `u64` subtraction: underflow aborts (debug overflow check). -/
def checkedSub (a b : Nat) : Option Nat := if b ≤ a then some (a - b) else none

/-- The two reconciliation branches (lines 314-340).  Result on success:
`(partitions, partn_count, actual_row_count, row_count_diff)`; `none`
models the aborts (index out of bounds on an empty `partitions`, division
by a zero size, `u64` underflow). -/
def adjustPartitionsDiff (row_count partn_count : Nat) (parts : List Part4)
    (actual_row_count : Nat) : Option (List Part4 × Nat × Nat × Nat) :=
  if actual_row_count < row_count then
    match parts with
    | [] => none
    | p0 :: rest =>
      if p0.2.2.1 = 0 then none
      else
        let row_count_diff := row_count - actual_row_count
        let smallest_partn_count_diff := row_count_diff / p0.2.2.1
        if 0 < smallest_partn_count_diff then
          let additional_rows := smallest_partn_count_diff * p0.2.2.1
          some ((p0.1, p0.2.1 + smallest_partn_count_diff, p0.2.2.1, p0.2.2.2) :: rest,
            partn_count + smallest_partn_count_diff,
            actual_row_count + additional_rows,
            row_count_diff - additional_rows)
        else some (parts, partn_count, actual_row_count, row_count_diff)
  else if row_count < actual_row_count then
    match parts with
    | [] => none
    | p0 :: rest =>
      if p0.2.2.1 = 0 then none
      else
        let row_count_diff := actual_row_count - row_count
        let d0 := row_count_diff / p0.2.2.1
        let smallest_partn_count_diff := if row_count_diff % p0.2.2.1 ≠ 0 then d0 + 1 else d0
        if 0 < smallest_partn_count_diff then do
          let partn_count2 ← checkedSub partn_count smallest_partn_count_diff
          let c0 ← checkedSub p0.2.1 smallest_partn_count_diff
          let a1 ← checkedSub actual_row_count (smallest_partn_count_diff * p0.2.2.1)
          let additional_rows := smallest_partn_count_diff * p0.2.2.1
          let a2 ← checkedSub a1 additional_rows
          let rcd ← checkedSub additional_rows row_count_diff
          some ((p0.1, c0, p0.2.2.1, p0.2.2.2) :: rest, partn_count2, a2, rcd)
        else some (parts, partn_count, actual_row_count, row_count_diff)
  else some (parts, partn_count, actual_row_count, 0)

/-- Search of the shortfall loop (lines 344-350): bump the first partition
whose size equals the shortfall. -/
def bumpSameSize : List Part4 → Nat → Option (List Part4)
  | [], _ => none
  | p :: rest, d =>
    if p.2.2.1 = d then some ((p.1, p.2.1 + 1, p.2.2.1, p.2.2.2) :: rest)
    else
      match bumpSameSize rest d with
      | some rest2 => some (p :: rest2)
      | none => none

/-- The shortfall step (lines 341-360): add the remaining rows either to an
existing equal-sized partition or as a new singleton group. -/
def addShortfallStep (parts : List Part4) (partn_count actual_row_count row_count_diff : Nat) :
    List Part4 × Nat × Nat :=
  if 0 < row_count_diff then
    let partn_count2 := partn_count + 1
    match bumpSameSize parts row_count_diff with
    | some parts2 => (parts2, partn_count2, actual_row_count + row_count_diff)
    | none =>
      (parts ++ [(F64.div ⟨f64Round (F64.div (F64.ofNat 100000) (F64.ofNat partn_count2)), 1⟩
          (F64.ofNat 1000), 1, row_count_diff, F64.ofNat 1)],
        partn_count2, actual_row_count + row_count_diff)
  else (parts, partn_count, actual_row_count)

/-- Group construction (lines 399-408): keep partitions with a positive
count. -/
def buildGroups (parts : List Part4) : List PartitionGroup :=
  (parts.filter (fun p => 0 < p.2.1)).map
    (fun p =>
      { n_rows_per_group := p.2.1 * p.2.2.1
        n_partitions := p.2.1
        n_rows_per_partition := p.2.2.1 })

/-- Sort order of line 411: descending by `n_rows_per_group`, stable. -/
def groupsOrder (a b : PartitionGroup) : Prop :=
  b.n_rows_per_group ≤ a.n_rows_per_group

instance : DecidableRel groupsOrder := fun a b => by
  unfold groupsOrder; exact inferInstance

/-- Outcome of `_init_partition_row_distribution_preset`: a validation error
(`Err`), a Rust abort (`fatal`), or the constructed preset (the source
stores it into `ctx.partition_row_presets`; the registry is modelled by the
wrapper below). -/
inductive InitOutcome where
  | fatal
  | err (e : AlternatorErrorKind)
  | ok (preset : RowDistributionPreset)
deriving DecidableEq, Repr

/-- `_init_partition_row_distribution_preset` (lines 217-419). -/
def _init_partition_row_distribution_preset (preset_name : String)
    (row_count rows_per_partitions_base : Nat) (rows_per_partitions_groups : String) :
    InitOutcome :=
  if preset_name = "" then
    .err (.Error "init_partition_row_distribution_preset: 'preset_name' cannot be empty")
  else if row_count < 1 then
    .err (.Error "init_partition_row_distribution_preset: 'row_count' cannot be less than 1")
  else if rows_per_partitions_base < 1 then
    .err (.Error
      "init_partition_row_distribution_preset: 'rows_per_partitions_base' cannot be less than 1")
  else
    let groups_str :=
      if rows_per_partitions_groups = "" then "100:1" else rows_per_partitions_groups
    match parsePairsLoop (splitOnChar ',' groups_str.data) [] [] (F64.ofNat 0) with
    | .error e => .err e
    | .ok (partn_multipliers, summary_percentage) =>
      if F64.blt ⟨1, 100⟩ (F64.abs (F64.sub summary_percentage (F64.ofNat 100))) then
        .err (.Error ("init_partition_row_distribution_preset: summary of partition " ++
          "percentage must be '100'. Got '" ++ String.mk (F64.fmt summary_percentage) ++
          "' instead"))
      else
        let partn_sizes := partnSizesOf rows_per_partitions_base partn_multipliers
        let partn_cycle_size := partnCycleSizeOf rows_per_partitions_base partn_multipliers
        let partn_count1 := partnCountOf row_count partn_cycle_size
        let partn_counts := partnCountsOf partn_multipliers partn_count1
        let partn_count := (partn_counts.map (fun e => e.2.2)).sum
        let combined := combinePartitions partn_counts partn_sizes partn_multipliers
        let partitions_sorted := List.insertionSort partitionsOrder combined.1
        match adjustPartitionsDiff row_count partn_count partitions_sorted combined.2 with
        | none => .fatal
        | some (parts2, partn_count2, actual2, row_count_diff) =>
          let shortfall := addShortfallStep parts2 partn_count2 actual2 row_count_diff
          let parts4 := List.insertionSort partitionsOrder shortfall.1
          let partition_groups := buildGroups parts4
          let partition_groups2 := List.insertionSort groupsOrder partition_groups
          .ok ((RowDistributionPreset.new partition_groups2).generate_row_distributions)

/-- `HashMap::insert` on the preset registry. -/
def registryInsert : List (String × RowDistributionPreset) → String → RowDistributionPreset →
    List (String × RowDistributionPreset)
  | [], k, v => [(k, v)]
  | (k0, v0) :: rest, k, v =>
    if k0 = k then (k, v) :: rest else (k0, v0) :: registryInsert rest k v

/-- The rune-facing wrapper `init_partition_row_distribution_preset`
(lines 172-187) together with the registry write at lines 415-416: on any
non-`Ok` outcome the registry is untouched. -/
def init_partition_row_distribution_preset
    (partition_row_presets : List (String × RowDistributionPreset)) (preset_name : String)
    (row_count rows_per_partitions_base : Nat) (rows_per_partitions_groups : String) :
    InitOutcome × List (String × RowDistributionPreset) :=
  match _init_partition_row_distribution_preset preset_name row_count
      rows_per_partitions_base rows_per_partitions_groups with
  | .ok preset => (.ok preset, registryInsert partition_row_presets preset_name preset)
  | r => (r, partition_row_presets)

/-! ### Request executor (`alternator/functions.rs`, lines 73-135)

The executor is modelled against an environment trace: the list of responses
the wire produces, one per `send`.  A successful response carries the number
of page items (for `Query`/`Scan` outputs, `item_count` equals the length of
the item vector, see `traits.rs`) and whether a continuation token was
returned; the accumulated item count stands in for the accumulated item
vector.  An exhausted trace (the loop would `send` again) is `none`:
unmodelled, not an outcome of the source. -/

/-- The configuration the executor reads from `Context`
(`alternator/context.rs`). -/
structure Context where
  retry_number : Nat
  page_size : Nat
deriving DecidableEq, Repr

/-- `AlternatorError::query_retries_exceeded` (`alternator_error.rs`,
lines 29-33). -/
def query_retries_exceeded (retry_number : Nat) : AlternatorErrorKind :=
  .QueryRetriesExceeded ("Max retry attempts (" ++ Nat.repr retry_number ++ ") reached")

/-- One response of the environment to a `send`. -/
inductive Resp where
  | success (page_items : Nat) (next_token : Bool)
  | failure
deriving DecidableEq, Repr

/-- The page size passed to `set_pagination` (lines 87-90):
`min(page_size, limit - total_item_count)` when a caller limit exists
(`i32` arithmetic), else the configured page size. -/
def requestedPageSize (page_size : Nat) (query_limit : Option Int) (total_item_count : Nat) :
    Int :=
  match query_limit with
  | some limit => min (page_size : Int) (limit - (total_item_count : Int))
  | none => (page_size : Int)

/-- Modelled from the spec: the retry-policy collaborator
`handle_retry_error` lives in `scripting::retry_error`, which is not present
under `src/`.  Per spec section 6 it classifies the error and may sleep a
backoff, is "side effect only", and "no return value consumed by the core
beyond proceed to retry"; the pure model therefore gives it no effect on the
executor state. -/
def handle_retry_error (_ctx : Context) (_current_attempt_num : Nat)
    (_current_error : AlternatorErrorKind) : Unit := ()

/-- `if total >= limit` check of lines 105-113. -/
def limitReached (query_limit : Option Int) (total_item_count : Nat) : Bool :=
  match query_limit with
  | some limit => (total_item_count : Int) ≥ limit
  | none => false

/-- The `while current_attempt_num <= ctx.retry_number` loop of
`handle_request` (lines 84-134); falling out of the loop yields the
`QueryRetriesExceeded` error of line 134. -/
def handleRequestLoop (ctx : Context) (query_limit : Option Int) (has_pagination : Bool) :
    Nat → Nat → List Resp → Option (Except AlternatorErrorKind Nat)
  | current_attempt_num, _, [] =>
    if ctx.retry_number < current_attempt_num then
      some (.error (query_retries_exceeded ctx.retry_number))
    else none
  | current_attempt_num, total_item_count, resp :: rest =>
    if ctx.retry_number < current_attempt_num then
      some (.error (query_retries_exceeded ctx.retry_number))
    else
      match resp with
      | .failure =>
        let _ := handle_retry_error ctx current_attempt_num (.SdkError "")
        handleRequestLoop ctx query_limit has_pagination (current_attempt_num + 1)
          total_item_count rest
      | .success page_items next_token =>
        let total2 := total_item_count + page_items
        if limitReached query_limit total2 then some (.ok total2)
        else if next_token ∧ has_pagination then
          handleRequestLoop ctx query_limit has_pagination 0 total2 rest
        else some (.ok total2)

/-- `handle_request` (lines 73-135): token `None`, attempt counter and
accumulators start at zero. -/
def handle_request (ctx : Context) (query_limit : Option Int) (has_pagination : Bool)
    (resps : List Resp) : Option (Except AlternatorErrorKind Nat) :=
  handleRequestLoop ctx query_limit has_pagination 0 0 resps

/-- The assumption of claim C8 on the environment: every successful page
returns at most the page size the executor requested at that point
(lines 87-90). -/
inductive RespectsLimit (page_size : Nat) (query_limit : Option Int) : Nat → List Resp → Prop
  | nil (total : Nat) : RespectsLimit page_size query_limit total []
  | fail (total : Nat) (rest : List Resp) :
      RespectsLimit page_size query_limit total rest →
      RespectsLimit page_size query_limit total (.failure :: rest)
  | succ (total c : Nat) (tk : Bool) (rest : List Resp)
      (hc : (c : Int) ≤ requestedPageSize page_size query_limit total)
      (hrest : RespectsLimit page_size query_limit (total + c) rest) :
      RespectsLimit page_size query_limit total (.success c tk :: rest)

/-- `ValidationArgs` (`functions_common.rs`, lines 47-51). -/
structure ValidationArgs where
  expected_min : Nat
  expected_max : Nat
  custom_err_msg : String
deriving DecidableEq, Repr

/-- The validation check of `query` (lines 444-453). -/
def query_check_validation (validation : Option ValidationArgs) (item_count : Nat) :
    Option AlternatorErrorKind :=
  match validation with
  | some v =>
    if item_count < v.expected_min ∨ v.expected_max < item_count then
      some (.ValidationError ("Query returned " ++ Nat.repr item_count ++
        " items, expected between " ++ Nat.repr v.expected_min ++ " and " ++
        Nat.repr v.expected_max ++ " " ++ v.custom_err_msg))
    else none
  | none => none

/-- The validation check of `scan` (lines 527-536). -/
def scan_check_validation (validation : Option ValidationArgs) (item_count : Nat) :
    Option AlternatorErrorKind :=
  match validation with
  | some v =>
    if item_count < v.expected_min ∨ v.expected_max < item_count then
      some (.ValidationError ("Scan returned " ++ Nat.repr item_count ++
        " items, expected between " ++ Nat.repr v.expected_min ++ " and " ++
        Nat.repr v.expected_max ++ " " ++ v.custom_err_msg))
    else none
  | none => none

/-- The tail of `query` (lines 441-461): run the executor, then validate the
accumulated item count. -/
def query_model (ctx : Context) (query_limit : Option Int)
    (validation : Option ValidationArgs) (resps : List Resp) :
    Option (Except AlternatorErrorKind Nat) :=
  match handle_request ctx query_limit true resps with
  | none => none
  | some (.error e) => some (.error e)
  | some (.ok item_count) =>
    match query_check_validation validation item_count with
    | some e => some (.error e)
    | none => some (.ok item_count)

/-- The tail of `scan` (lines 524-544). -/
def scan_model (ctx : Context) (query_limit : Option Int)
    (validation : Option ValidationArgs) (resps : List Resp) :
    Option (Except AlternatorErrorKind Nat) :=
  match handle_request ctx query_limit true resps with
  | none => none
  | some (.error e) => some (.error e)
  | some (.ok item_count) =>
    match scan_check_validation validation item_count with
    | some e => some (.error e)
    | none => some (.ok item_count)

deriving instance DecidableEq for Except

/-! ## Theorems -/

/-! ### Generation invariants (claims C5, C4) -/

theorem mkRowDistributionPair_invariants (L R : Nat) :
    ((mkRowDistributionPair L R).1.n_rows_for_left_and_right =
        (mkRowDistributionPair L R).1.n_rows_for_left +
          (mkRowDistributionPair L R).1.n_rows_for_right ∧
      (mkRowDistributionPair L R).1.n_rows_for_all_cycles =
        (mkRowDistributionPair L R).1.n_cycles *
          (mkRowDistributionPair L R).1.n_rows_for_left_and_right) ∧
    ((mkRowDistributionPair L R).2.n_rows_for_left_and_right =
        (mkRowDistributionPair L R).2.n_rows_for_left +
          (mkRowDistributionPair L R).2.n_rows_for_right ∧
      (mkRowDistributionPair L R).2.n_rows_for_all_cycles =
        (mkRowDistributionPair L R).2.n_cycles *
          (mkRowDistributionPair L R).2.n_rows_for_left_and_right) := by
  rcases h : max_gcd_with_tail L R with ⟨c, ⟨m1, t1⟩, m2, t2⟩
  simp [mkRowDistributionPair, h, Nat.mul_add]

theorem generateRowDistributionsAux_mem (other : Nat) (gs : List PartitionGroup)
    (pr : RowDistribution × RowDistribution) (h : pr ∈ generateRowDistributionsAux other gs) :
    ∃ L R, pr = mkRowDistributionPair L R := by
  induction gs generalizing other with
  | nil => simp [generateRowDistributionsAux] at h
  | cons g rest ih =>
    simp only [generateRowDistributionsAux, List.mem_cons] at h
    rcases h with h | h
    · exact ⟨_, _, h⟩
    · exact ih _ h

/-- C5: every `RowDistribution` produced by `generate_row_distributions`
(both cycle types of every group) satisfies
`n_rows_for_left_and_right = n_rows_for_left + n_rows_for_right` and
`n_rows_for_all_cycles = n_cycles * n_rows_for_left_and_right`. -/
theorem claim_c5_row_distribution_invariants (gs : List PartitionGroup)
    (pr : RowDistribution × RowDistribution)
    (hpr : pr ∈ ((RowDistributionPreset.new gs).generate_row_distributions).row_distributions) :
    (pr.1.n_rows_for_left_and_right = pr.1.n_rows_for_left + pr.1.n_rows_for_right ∧
      pr.1.n_rows_for_all_cycles = pr.1.n_cycles * pr.1.n_rows_for_left_and_right) ∧
    (pr.2.n_rows_for_left_and_right = pr.2.n_rows_for_left + pr.2.n_rows_for_right ∧
      pr.2.n_rows_for_all_cycles = pr.2.n_cycles * pr.2.n_rows_for_left_and_right) := by
  have hmem : pr ∈ generateRowDistributionsAux
      ((gs.map (fun pg => pg.n_rows_per_group)).sum) gs := by
    simpa [RowDistributionPreset.generate_row_distributions, RowDistributionPreset.new]
      using hpr
  obtain ⟨L, R, rfl⟩ := generateRowDistributionsAux_mem _ _ _ hmem
  exact mkRowDistributionPair_invariants L R

theorem claim_c5_row_distribution_invariants_witness :
    (mkRowDistributionPair 5 0 ∈
      ((RowDistributionPreset.new
        ([⟨5, 1, 5⟩] : List PartitionGroup)).generate_row_distributions).row_distributions) ∧
    ((mkRowDistributionPair 5 0).1.n_rows_for_all_cycles =
      (mkRowDistributionPair 5 0).1.n_cycles *
        (mkRowDistributionPair 5 0).1.n_rows_for_left_and_right) :=
  ⟨by decide,
   (claim_c5_row_distribution_invariants ([⟨5, 1, 5⟩] : List PartitionGroup)
     (mkRowDistributionPair 5 0) (by decide)).1.2⟩

/-- C4: for every preset with positive `total_rows`, the index-to-partition
mapping is periodic with period `total_rows` (for every `idx` and every `k`
with `idx + k * total_rows` representable in `u64`). -/
theorem claim_c4_periodicity (p : RowDistributionPreset) (idx k : Nat)
    (h1 : 0 < p.total_rows) (h2 : idx + k * p.total_rows < 2 ^ 64) :
    p.get_partition_info idx = p.get_partition_info (idx + k * p.total_rows) := by
  unfold RowDistributionPreset.get_partition_info
  have hne : p.total_rows ≠ 0 := Nat.pos_iff_ne_zero.mp h1
  simp [hne, Nat.add_mul_mod_self_right]

theorem claim_c4_periodicity_witness :
    0 < (RowDistributionPreset.new
      [{ n_rows_per_group := 5, n_partitions := 1, n_rows_per_partition := 5 }]).total_rows ∧
    3 + 2 * (RowDistributionPreset.new
      [{ n_rows_per_group := 5, n_partitions := 1, n_rows_per_partition := 5 }]).total_rows
        < 2 ^ 64 ∧
    (RowDistributionPreset.new
      [{ n_rows_per_group := 5, n_partitions := 1, n_rows_per_partition := 5 }]
      ).get_partition_info 3 =
    (RowDistributionPreset.new
      [{ n_rows_per_group := 5, n_partitions := 1, n_rows_per_partition := 5 }]
      ).get_partition_info (3 + 2 * (RowDistributionPreset.new
        [{ n_rows_per_group := 5, n_partitions := 1, n_rows_per_partition := 5 }]).total_rows) :=
  ⟨by decide, by decide, claim_c4_periodicity _ 3 2 (by decide) (by decide)⟩

/-! ### Executor (claims C7, C8, C9) -/

theorem handleRequestLoop_exceeded (ctx : Context) (query_limit : Option Int)
    (has_pagination : Bool) (a total : Nat) (resps : List Resp)
    (h : ctx.retry_number < a) :
    handleRequestLoop ctx query_limit has_pagination a total resps =
      some (.error (query_retries_exceeded ctx.retry_number)) := by
  cases resps <;> simp [handleRequestLoop, h]

theorem handleRequestLoop_consume_failures (ctx : Context) (query_limit : Option Int)
    (has_pagination : Bool) (total : Nat) (rest : List Resp) :
    ∀ k a, a + k = ctx.retry_number + 1 →
      handleRequestLoop ctx query_limit has_pagination a total
        (List.replicate k .failure ++ rest) =
        some (.error (query_retries_exceeded ctx.retry_number)) := by
  intro k
  induction k with
  | zero =>
    intro a ha
    have h : ctx.retry_number < a := by omega
    simpa using handleRequestLoop_exceeded ctx query_limit has_pagination a total rest h
  | succ k ih =>
    intro a ha
    have h : ¬ ctx.retry_number < a := by omega
    simp only [List.replicate_succ, List.cons_append, handleRequestLoop, h, if_false]
    exact ih (a + 1) (by omega)

/-- C7: the per-page send budget of `handle_request`.  (i) Once the attempt
counter exceeds `retry_number`, the loop terminates with the
`QueryRetriesExceeded` error carrying the configured limit.  (ii) From any
attempt count `a ≤ retry_number`, `retry_number + 1 - a` consecutive
failures produce that terminal error, so a page is sent at most
`retry_number + 1` times.  (iii) A successful page whose response carries a
continuation token (and does not reach a caller limit) resets the attempt
counter to 0 for the next page. -/
theorem claim_c7_retry_budget (ctx : Context) (query_limit : Option Int)
    (has_pagination : Bool) :
    (∀ a total resps, ctx.retry_number < a →
      handleRequestLoop ctx query_limit has_pagination a total resps =
        some (.error (query_retries_exceeded ctx.retry_number))) ∧
    (∀ a total rest, a ≤ ctx.retry_number →
      handleRequestLoop ctx query_limit has_pagination a total
        (List.replicate (ctx.retry_number + 1 - a) .failure ++ rest) =
        some (.error (query_retries_exceeded ctx.retry_number))) ∧
    (∀ a total c rest, a ≤ ctx.retry_number → has_pagination = true →
      limitReached query_limit (total + c) = false →
      handleRequestLoop ctx query_limit has_pagination a total (.success c true :: rest) =
        handleRequestLoop ctx query_limit has_pagination 0 (total + c) rest) := by
  refine ⟨?_, ?_, ?_⟩
  · intro a total resps h
    exact handleRequestLoop_exceeded ctx query_limit has_pagination a total resps h
  · intro a total rest ha
    exact handleRequestLoop_consume_failures ctx query_limit has_pagination total rest _ a
      (by omega)
  · intro a total c rest ha hpag hlim
    have h : ¬ ctx.retry_number < a := by omega
    simp [handleRequestLoop, h, hlim, hpag]

theorem claim_c7_retry_budget_witness :
    (handleRequestLoop ⟨2, 3⟩ none true 3 0 [] =
      some (.error (query_retries_exceeded 2))) ∧
    (handleRequestLoop ⟨2, 3⟩ none true 0 0 (List.replicate 3 .failure ++ []) =
      some (.error (query_retries_exceeded 2))) ∧
    (handleRequestLoop ⟨2, 3⟩ none true 0 0 [.success 1 true] =
      handleRequestLoop ⟨2, 3⟩ none true 0 (0 + 1) []) :=
  ⟨(claim_c7_retry_budget ⟨2, 3⟩ none true).1 3 0 [] (by decide),
   (claim_c7_retry_budget ⟨2, 3⟩ none true).2.1 0 0 [] (by decide),
   (claim_c7_retry_budget ⟨2, 3⟩ none true).2.2 0 0 1 [] (by decide) rfl (by decide)⟩

/-- C8: with a declared caller limit `L ≥ 0`, if every successful page
returns at most the page size the executor requested for it
(`min(page_size, L - accumulated)`), the accumulated result returned by the
executor never exceeds `L`; in particular with `L = 5` and page size 3 the
executor returns exactly 5 items across two pages. -/
theorem claim_c8_declared_limit (page_size : Nat) (L : Int) (hL : 0 ≤ L) :
    (∀ (resps : List Resp) (ctx : Context) (a total n : Nat), (total : Int) ≤ L →
      RespectsLimit page_size (some L) total resps →
      handleRequestLoop ctx (some L) true a total resps = some (.ok n) →
      (n : Int) ≤ L) ∧
    handle_request ⟨2, 3⟩ (some 5) true [.success 3 true, .success 2 true] =
      some (.ok 5) := by
  constructor
  · intro resps
    induction resps with
    | nil =>
      intro ctx a total n _ _ hrun
      by_cases h : ctx.retry_number < a <;> simp [handleRequestLoop, h] at hrun
    | cons r rest ih =>
      intro ctx a total n htot hresp hrun
      by_cases h : ctx.retry_number < a
      · simp [handleRequestLoop, h] at hrun
      · cases r with
        | failure =>
          cases hresp with
          | fail _ _ hrest =>
            simp only [handleRequestLoop, h, if_false, handle_retry_error] at hrun
            exact ih ctx (a + 1) total n htot hrest hrun
        | success c tk =>
          cases hresp with
          | succ _ _ _ _ hc hrest =>
            have hmin : min (page_size : Int) (L - (total : Int)) ≤ L - (total : Int) :=
              min_le_right _ _
            have hc2 : (total : Int) + (c : Int) ≤ L := by
              have hcc : (c : Int) ≤ L - (total : Int) := by
                refine le_trans hc ?_
                simpa [requestedPageSize] using hmin
              omega
            have htc : ((total + c : Nat) : Int) ≤ L := by push_cast; omega
            simp only [handleRequestLoop, h, if_false] at hrun
            by_cases hl : limitReached (some L) (total + c) = true
            · simp only [hl, if_true] at hrun
              cases hrun
              exact htc
            · rw [Bool.not_eq_true] at hl
              simp only [hl, Bool.false_eq_true, if_false] at hrun
              cases tk with
              | true =>
                simp only [true_and, if_true] at hrun
                exact ih ctx 0 (total + c) n htc hrest hrun
              | false =>
                simp only [Bool.false_eq_true, false_and, if_false] at hrun
                cases hrun
                exact htc
  · rfl

theorem claim_c8_declared_limit_witness :
    ((5 : Nat) : Int) ≤ 5 ∧
    handle_request ⟨2, 3⟩ (some 5) true [.success 3 true, .success 2 true] =
      some (.ok 5) :=
  ⟨(claim_c8_declared_limit 3 5 (by decide)).1
      [.success 3 true, .success 2 true] ⟨2, 3⟩ 0 0 5 (by decide)
      (RespectsLimit.succ 0 3 true _ (by decide)
        (RespectsLimit.succ 3 2 true [] (by decide) (RespectsLimit.nil 5)))
      ((claim_c8_declared_limit 3 5 (by decide)).2),
   (claim_c8_declared_limit 3 5 (by decide)).2⟩

/-- C9: for query and scan with a validation spec, a `ValidationError` is
produced after accumulation exactly when the item count lies outside the
inclusive `[expected_min, expected_max]` range; the message reports the
actual count, both bounds and the custom message; in particular expected
range `[10,10]` with actual count 8 reports actual 8 and bounds 10..10. -/
theorem claim_c9_validation_range (v : ValidationArgs) (n : Nat) :
    (query_check_validation (some v) n ≠ none ↔
      (n < v.expected_min ∨ v.expected_max < n)) ∧
    query_check_validation (some v) n =
      (if n < v.expected_min ∨ v.expected_max < n then
        some (.ValidationError ("Query returned " ++ Nat.repr n ++
          " items, expected between " ++ Nat.repr v.expected_min ++ " and " ++
          Nat.repr v.expected_max ++ " " ++ v.custom_err_msg))
      else none) ∧
    (scan_check_validation (some v) n ≠ none ↔
      (n < v.expected_min ∨ v.expected_max < n)) ∧
    scan_check_validation (some v) n =
      (if n < v.expected_min ∨ v.expected_max < n then
        some (.ValidationError ("Scan returned " ++ Nat.repr n ++
          " items, expected between " ++ Nat.repr v.expected_min ++ " and " ++
          Nat.repr v.expected_max ++ " " ++ v.custom_err_msg))
      else none) ∧
    (∀ ctx query_limit resps, handle_request ctx query_limit true resps = some (.ok n) →
      ((∃ m, query_model ctx query_limit (some v) resps = some (.error (.ValidationError m))) ↔
        (n < v.expected_min ∨ v.expected_max < n))) ∧
    query_check_validation (some ⟨10, 10, ""⟩) 8 =
      some (.ValidationError "Query returned 8 items, expected between 10 and 10 ") := by
  refine ⟨?_, ?_, ?_, ?_, ?_, by decide⟩
  · by_cases h : n < v.expected_min ∨ v.expected_max < n <;>
      simp [query_check_validation, h]
  · by_cases h : n < v.expected_min ∨ v.expected_max < n <;>
      simp [query_check_validation, h]
  · by_cases h : n < v.expected_min ∨ v.expected_max < n <;>
      simp [scan_check_validation, h]
  · by_cases h : n < v.expected_min ∨ v.expected_max < n <;>
      simp [scan_check_validation, h]
  · intro ctx query_limit resps hrun
    by_cases h : n < v.expected_min ∨ v.expected_max < n <;>
      simp [query_model, hrun, query_check_validation, h]

/-! ### `max_gcd_with_tail` specification (claims C10, C1) -/

theorem gcdAux_eq (fuel : Nat) : ∀ n1 n2, n2 < fuel → gcdAux fuel n1 n2 = Nat.gcd n2 n1 := by
  induction fuel with
  | zero => intro n1 n2 h; omega
  | succ fuel ih =>
    intro n1 n2 h
    by_cases h2 : n2 = 0
    · subst h2; simp [gcdAux]
    · rw [gcdAux, if_neg h2,
        ih n2 (n1 % n2) (by have := Nat.mod_lt n1 (Nat.pos_of_ne_zero h2); omega)]
      exact (Nat.gcd_rec n2 n1).symm

theorem gcd_eq (n1 n2 : Nat) : gcd n1 n2 = Nat.gcd n1 n2 := by
  rw [gcd, gcdAux_eq (n2 + 1) n1 n2 (Nat.lt_succ_self n2), Nat.gcd_comm]

theorem foldl_range_succ {α : Type} (f : α → Nat → α) (init : α) (k : Nat) :
    (List.range (k + 1)).foldl f init = f ((List.range k).foldl f init) k := by
  rw [List.range_succ, List.foldl_append, List.foldl_cons, List.foldl_nil]

theorem mgwt_loop2_no_update (n1 n2 : Nat) (st : Nat × (Nat × Nat) × (Nat × Nat))
    (l : List Nat) (h : ∀ t ∈ l, gcd n1 (n2 - t) ≤ st.1) :
    l.foldl (maxGcdWithTailStep2 n1 n2) st = st := by
  induction l with
  | nil => rfl
  | cons t rest ih =>
    rw [List.foldl_cons]
    have ht := h t (List.mem_cons_self t rest)
    rw [show maxGcdWithTailStep2 n1 n2 st t = st by
      simp only [maxGcdWithTailStep2]
      rw [if_neg (by omega : ¬ st.1 < gcd n1 (n2 - t))]]
    exact ih (fun t2 h2 => h t2 (List.mem_cons_of_mem _ h2))

theorem mgwt_loop1_invariant (n1 n2 : Nat) (h1 : 1 ≤ n1) :
    ∀ k, 1 ≤ k → k ≤ n1 / 100 + 1 →
      (∀ t2 < k, Nat.gcd (n1 - t2) n2 ≤
        ((List.range k).foldl (maxGcdWithTailStep1 n1 n2) (0, (0, 0), (0, 0))).1) ∧
      (∃ t, t < k ∧
        (List.range k).foldl (maxGcdWithTailStep1 n1 n2) (0, (0, 0), (0, 0)) =
          (Nat.gcd (n1 - t) n2, ((n1 - t) / Nat.gcd (n1 - t) n2, t),
            (n2 / Nat.gcd (n1 - t) n2, 0)) ∧
        (0 < t → t < Nat.gcd (n1 - t) n2)) := by
  intro k
  induction k with
  | zero => omega
  | succ k ih =>
    intro _ hk
    by_cases hk1 : k = 0
    · subst hk1
      have hpos : 0 < Nat.gcd (n1 - 0) n2 := by
        simp only [Nat.sub_zero]
        exact Nat.gcd_pos_of_pos_left n2 h1
      constructor
      · intro t2 ht2
        have ht0 : t2 = 0 := by omega
        subst ht0
        simp only [List.range_succ, List.range_zero, List.nil_append, List.foldl_cons,
          List.foldl_nil, maxGcdWithTailStep1, gcd_eq]
        rw [if_pos hpos]
      · refine ⟨0, by omega, ?_, by omega⟩
        simp only [List.range_succ, List.range_zero, List.nil_append, List.foldl_cons,
          List.foldl_nil, maxGcdWithTailStep1, gcd_eq]
        rw [if_pos hpos]
    · have hk2 : 1 ≤ k := by omega
      obtain ⟨hbound, t, htk, hst, hstrict⟩ := ih hk2 (by omega)
      set st := (List.range k).foldl (maxGcdWithTailStep1 n1 n2) (0, (0, 0), (0, 0)) with hstdef
      rw [foldl_range_succ]
      have hkle : k ≤ n1 / 100 := by omega
      have hkn1 : k ≤ n1 := le_trans hkle (Nat.div_le_self n1 100)
      by_cases hupd : st.1 < Nat.gcd (n1 - k) n2
      · have hstep : maxGcdWithTailStep1 n1 n2 st k =
            (Nat.gcd (n1 - k) n2, ((n1 - k) / Nat.gcd (n1 - k) n2, k),
              (n2 / Nat.gcd (n1 - k) n2, 0)) := by
          simp only [maxGcdWithTailStep1, gcd_eq]
          rw [if_pos hupd]
        rw [hstep]
        constructor
        · intro t2 ht2
          by_cases h3 : t2 < k
          · exact le_trans (hbound t2 h3) (le_of_lt hupd)
          · have : t2 = k := by omega
            subst this
            exact le_refl _
        · refine ⟨k, by omega, rfl, ?_⟩
          intro hk0
          by_contra hle
          push_neg at hle
          set g := Nat.gcd (n1 - k) n2 with hgdef
          have hgpos : 0 < g := by
            have : 1 ≤ n1 - k := by
              have := Nat.div_lt_self (by omega : 0 < n1) (by omega : 1 < 100)
              omega
            exact Nat.gcd_pos_of_pos_left n2 this
          have hdvd1 : g ∣ n1 - k := Nat.gcd_dvd_left _ _
          have hdvd2 : g ∣ n2 := Nat.gcd_dvd_right _ _
          have hdvd3 : g ∣ n1 - (k - g) := by
            have heq : n1 - (k - g) = (n1 - k) + g := by omega
            rw [heq]
            exact Dvd.dvd.add hdvd1 (dvd_refl g)
          have hpos3 : 0 < Nat.gcd (n1 - (k - g)) n2 := by
            have : 1 ≤ n1 - (k - g) := by
              have := Nat.div_lt_self (by omega : 0 < n1) (by omega : 1 < 100)
              omega
            exact Nat.gcd_pos_of_pos_left n2 this
          have hge : g ≤ Nat.gcd (n1 - (k - g)) n2 :=
            Nat.le_of_dvd hpos3 (Nat.dvd_gcd hdvd3 hdvd2)
          have hlt : Nat.gcd (n1 - (k - g)) n2 ≤ st.1 := hbound (k - g) (by omega)
          omega
      · have hstep : maxGcdWithTailStep1 n1 n2 st k = st := by
          simp only [maxGcdWithTailStep1, gcd_eq]
          rw [if_neg hupd]
        rw [hstep]
        constructor
        · intro t2 ht2
          by_cases h3 : t2 < k
          · exact hbound t2 h3
          · have : t2 = k := by omega
            subst this
            omega
        · exact ⟨t, by omega, hst, hstrict⟩

theorem mgwt_loop2_invariant (n1 n2 : Nat) (h1 : 1 ≤ n1)
    (st1 : Nat × (Nat × Nat) × (Nat × Nat)) (hst1pos : 0 < st1.1) :
    ∀ k, k ≤ n2 / 100 + 1 →
      (∀ t2 < k, Nat.gcd n1 (n2 - t2) ≤
        ((List.range k).foldl (maxGcdWithTailStep2 n1 n2) st1).1) ∧
      st1.1 ≤ ((List.range k).foldl (maxGcdWithTailStep2 n1 n2) st1).1 ∧
      (((List.range k).foldl (maxGcdWithTailStep2 n1 n2) st1) = st1 ∨
        (∃ t, t < k ∧
          (List.range k).foldl (maxGcdWithTailStep2 n1 n2) st1 =
            (Nat.gcd n1 (n2 - t), (n1 / Nat.gcd n1 (n2 - t), 0),
              ((n2 - t) / Nat.gcd n1 (n2 - t), t)) ∧
          (0 < t → t < Nat.gcd n1 (n2 - t)))) := by
  intro k
  induction k with
  | zero =>
    intro _
    refine ⟨by omega, ?_, Or.inl rfl⟩
    simp [List.range_zero]
  | succ k ih =>
    intro hk
    obtain ⟨hbound, hmono, hshape⟩ := ih (by omega)
    set st := (List.range k).foldl (maxGcdWithTailStep2 n1 n2) st1 with hstdef
    rw [foldl_range_succ]
    have hkle : k ≤ n2 / 100 := by omega
    have hkn2 : k ≤ n2 := le_trans hkle (Nat.div_le_self n2 100)
    by_cases hupd : st.1 < Nat.gcd n1 (n2 - k)
    · have hstep : maxGcdWithTailStep2 n1 n2 st k =
          (Nat.gcd n1 (n2 - k), (n1 / Nat.gcd n1 (n2 - k), 0),
            ((n2 - k) / Nat.gcd n1 (n2 - k), k)) := by
        simp only [maxGcdWithTailStep2, gcd_eq]
        rw [if_pos hupd]
      rw [hstep]
      refine ⟨?_, by omega, Or.inr ⟨k, by omega, rfl, ?_⟩⟩
      · intro t2 ht2
        by_cases h3 : t2 < k
        · exact le_trans (hbound t2 h3) (le_of_lt hupd)
        · have : t2 = k := by omega
          subst this
          exact le_refl _
      · intro hk0
        by_contra hle
        push_neg at hle
        set g := Nat.gcd n1 (n2 - k) with hgdef
        have hgpos : 0 < g := Nat.gcd_pos_of_pos_left _ h1
        have hdvd1 : g ∣ n2 - k := Nat.gcd_dvd_right _ _
        have hdvd2 : g ∣ n1 := Nat.gcd_dvd_left _ _
        have hdvd3 : g ∣ n2 - (k - g) := by
          have heq : n2 - (k - g) = (n2 - k) + g := by omega
          rw [heq]
          exact Dvd.dvd.add hdvd1 (dvd_refl g)
        have hpos3 : 0 < Nat.gcd n1 (n2 - (k - g)) := Nat.gcd_pos_of_pos_left _ h1
        have hge : g ≤ Nat.gcd n1 (n2 - (k - g)) :=
          Nat.le_of_dvd hpos3 (Nat.dvd_gcd hdvd2 hdvd3)
        have hlt : Nat.gcd n1 (n2 - (k - g)) ≤ st.1 := hbound (k - g) (by omega)
        omega
    · have hstep : maxGcdWithTailStep2 n1 n2 st k = st := by
        simp only [maxGcdWithTailStep2, gcd_eq]
        rw [if_neg hupd]
      rw [hstep]
      refine ⟨?_, hmono, ?_⟩
      · intro t2 ht2
        by_cases h3 : t2 < k
        · exact hbound t2 h3
        · have : t2 = k := by omega
          subst this
          omega
      · rcases hshape with h | ⟨t, htk, hsh, hstrict⟩
        · exact Or.inl h
        · exact Or.inr ⟨t, by omega, hsh, hstrict⟩

/-- Full functional specification of `max_gcd_with_tail` for `n1 ≥ 1`. -/
theorem max_gcd_with_tail_spec (n1 n2 g m1 t1 m2 t2 : Nat) (h1 : 1 ≤ n1)
    (h : max_gcd_with_tail n1 n2 = (g, (m1, t1), (m2, t2))) :
    0 < g ∧ (t1 = 0 ∨ t2 = 0) ∧ t1 ≤ n1 / 100 ∧ t2 ≤ n2 / 100 ∧
    g * m1 + t1 = n1 ∧ g * m2 + t2 = n2 ∧ Nat.gcd n1 n2 ≤ g ∧
    t1 < g ∧ t2 < g ∧ 1 ≤ m1 := by
  obtain ⟨hbound1, ta, htak, hsta, hstricta⟩ :=
    mgwt_loop1_invariant n1 n2 h1 (n1 / 100 + 1) (by omega) (by omega)
  set st1 := (List.range (n1 / 100 + 1)).foldl (maxGcdWithTailStep1 n1 n2) (0, (0, 0), (0, 0))
    with hst1def
  have htan1 : ta ≤ n1 / 100 := by omega
  have hta_lt_n1 : ta < n1 :=
    lt_of_le_of_lt htan1 (Nat.div_lt_self (by omega) (by omega))
  have hga_pos : 0 < Nat.gcd (n1 - ta) n2 :=
    Nat.gcd_pos_of_pos_left n2 (by omega)
  have hst1pos : 0 < st1.1 := by rw [hsta]; exact hga_pos
  obtain ⟨hbound2, hmono2, hshape2⟩ :=
    mgwt_loop2_invariant n1 n2 h1 st1 hst1pos (n2 / 100 + 1) (by omega)
  have hfin : (List.range (n2 / 100 + 1)).foldl (maxGcdWithTailStep2 n1 n2) st1 =
      (g, (m1, t1), (m2, t2)) := by
    rw [← h]
    rfl
  have hgcd_le : Nat.gcd n1 n2 ≤ g := by
    have h0 := hbound2 0 (by omega)
    rw [hfin] at h0
    simpa using h0
  rcases hshape2 with hfs | ⟨tb, htbk, hstb, hstrictb⟩
  · -- final state is the loop-1 best: tail taken from n1
    rw [hfin, hsta] at hfs
    have hg : g = Nat.gcd (n1 - ta) n2 := congrArg Prod.fst hfs
    have hrest := congrArg Prod.snd hfs
    have hm1 : m1 = (n1 - ta) / Nat.gcd (n1 - ta) n2 := congrArg (fun x => x.1.1) hrest
    have ht1 : t1 = ta := congrArg (fun x => x.1.2) hrest
    have hm2 : m2 = n2 / Nat.gcd (n1 - ta) n2 := congrArg (fun x => x.2.1) hrest
    have ht2 : t2 = 0 := congrArg (fun x => x.2.2) hrest
    subst hg hm1 ht1 hm2 ht2
    have hprod1 : Nat.gcd (n1 - t1) n2 * ((n1 - t1) / Nat.gcd (n1 - t1) n2) = n1 - t1 :=
      Nat.mul_div_cancel' (Nat.gcd_dvd_left _ _)
    have hprod2 : Nat.gcd (n1 - t1) n2 * (n2 / Nat.gcd (n1 - t1) n2) = n2 :=
      Nat.mul_div_cancel' (Nat.gcd_dvd_right _ _)
    have hm1pos : 1 ≤ (n1 - t1) / Nat.gcd (n1 - t1) n2 :=
      Nat.one_le_div_iff hga_pos |>.mpr (Nat.le_of_dvd (by omega) (Nat.gcd_dvd_left _ _))
    refine ⟨hga_pos, Or.inr rfl, htan1, by omega, by omega, by omega, hgcd_le, ?_, hga_pos,
      hm1pos⟩
    rcases Nat.eq_zero_or_pos t1 with h0 | h0
    · omega
    · exact hstricta h0
  · -- final state comes from loop 2: tail taken from n2
    rw [hfin] at hstb
    have htbn2 : tb ≤ n2 / 100 := by omega
    have hgb_pos : 0 < Nat.gcd n1 (n2 - tb) := Nat.gcd_pos_of_pos_left _ h1
    have hg : g = Nat.gcd n1 (n2 - tb) := congrArg Prod.fst hstb
    have hrest := congrArg Prod.snd hstb
    have hm1 : m1 = n1 / Nat.gcd n1 (n2 - tb) := congrArg (fun x => x.1.1) hrest
    have ht1 : t1 = 0 := congrArg (fun x => x.1.2) hrest
    have hm2 : m2 = (n2 - tb) / Nat.gcd n1 (n2 - tb) := congrArg (fun x => x.2.1) hrest
    have ht2 : t2 = tb := congrArg (fun x => x.2.2) hrest
    subst hg hm1 ht1 hm2 ht2
    have htbn2' : t2 ≤ n2 := le_trans htbn2 (Nat.div_le_self n2 100)
    have hprod1 : Nat.gcd n1 (n2 - t2) * (n1 / Nat.gcd n1 (n2 - t2)) = n1 :=
      Nat.mul_div_cancel' (Nat.gcd_dvd_left _ _)
    have hprod2 : Nat.gcd n1 (n2 - t2) * ((n2 - t2) / Nat.gcd n1 (n2 - t2)) = n2 - t2 :=
      Nat.mul_div_cancel' (Nat.gcd_dvd_right _ _)
    have hm1pos : 1 ≤ n1 / Nat.gcd n1 (n2 - t2) :=
      Nat.one_le_div_iff hgb_pos |>.mpr (Nat.le_of_dvd (by omega) (Nat.gcd_dvd_left _ _))
    refine ⟨hgb_pos, Or.inl rfl, by omega, htbn2, by omega, by omega, hgcd_le, hgb_pos, ?_,
      hm1pos⟩
    rcases Nat.eq_zero_or_pos t2 with h0 | h0
    · omega
    · exact hstrictb h0

/-- `max_gcd_with_tail (0, R)` for `R ≥ 1`: only the `tail_n1 = 0` candidate
of the first loop fires. -/
theorem max_gcd_with_tail_zero_left (R : Nat) (hR : 1 ≤ R) :
    max_gcd_with_tail 0 R = (R, (0, 0), (1, 0)) := by
  have hst1 : (List.range (0 / 100 + 1)).foldl (maxGcdWithTailStep1 0 R) (0, (0, 0), (0, 0)) =
      (R, (0, 0), (1, 0)) := by
    simp only [Nat.zero_div, List.range_succ, List.range_zero, List.nil_append,
      List.foldl_cons, List.foldl_nil, maxGcdWithTailStep1, gcd_eq]
    simp only [Nat.sub_zero, Nat.gcd_zero_left]
    rw [if_pos (show 0 < R by omega)]
    simp [Nat.div_self (by omega : 0 < R)]
  unfold max_gcd_with_tail
  rw [hst1]
  apply mgwt_loop2_no_update
  intro t _
  rw [gcd_eq]
  simp only [Nat.gcd_zero_left]
  omega

/-- C10: for `n1 ≥ 1`, the result `(g, (mult1, tail1), (mult2, tail2))` of
`max_gcd_with_tail` satisfies: at most one tail is nonzero; `tail1 ≤ n1/100`
and `tail2 ≤ n2/100`; `g * mult1 + tail1 = n1` and `g * mult2 + tail2 = n2`;
and `g ≥ gcd(n1, n2)` (allowing a tail never worsens the achieved
divisor). -/
theorem claim_c10_max_gcd_with_tail (n1 n2 g m1 t1 m2 t2 : Nat) (h1 : 1 ≤ n1)
    (h : max_gcd_with_tail n1 n2 = (g, (m1, t1), (m2, t2))) :
    (t1 = 0 ∨ t2 = 0) ∧ t1 ≤ n1 / 100 ∧ t2 ≤ n2 / 100 ∧
    g * m1 + t1 = n1 ∧ g * m2 + t2 = n2 ∧ Nat.gcd n1 n2 ≤ g := by
  obtain ⟨-, h2, h3, h4, h5, h6, h7, -, -, -⟩ := max_gcd_with_tail_spec n1 n2 g m1 t1 m2 t2 h1 h
  exact ⟨h2, h3, h4, h5, h6, h7⟩

theorem claim_c10_max_gcd_with_tail_witness :
    1 ≤ 988 ∧
    ((4 = 0 ∨ 0 = 0) ∧ 4 ≤ 988 / 100 ∧ 0 ≤ 12 / 100 ∧
      12 * 82 + 4 = 988 ∧ 12 * 1 + 0 = 12 ∧ Nat.gcd 988 12 ≤ 12) :=
  ⟨by decide, claim_c10_max_gcd_with_tail 988 12 12 82 4 1 0 (by decide) (by decide)⟩

/-! ### Index resolution: per-group step (claim C1) -/

theorem mkRowDistributionPair_eq (L R g m1 t1 m2 t2 : Nat)
    (h : max_gcd_with_tail L R = (g, (m1, t1), (m2, t2))) :
    mkRowDistributionPair L R =
      (⟨t1 + t2, m1 + (if 0 < t1 then 1 else 0), m2 + (if 0 < t2 then 1 else 0),
        (m1 + (if 0 < t1 then 1 else 0)) + (m2 + (if 0 < t2 then 1 else 0)),
        (t1 + t2) * (m1 + (if 0 < t1 then 1 else 0)) +
          (t1 + t2) * (m2 + (if 0 < t2 then 1 else 0))⟩,
       ⟨g - t1 - t2, m1, m2, m1 + m2, (g - t1 - t2) * m1 + (g - t1 - t2) * m2⟩) := by
  simp [mkRowDistributionPair, h]

/-- Row total covered by the "left" sides of the two cycle types of one
group (symmetric in the two operands of `max_gcd_with_tail`). -/
theorem mgwt_total (g m t s N : Nat) (hN : g * m + t = N) (htg : t < g) (hsg : s < g)
    (hdisj : t = 0 ∨ s = 0) :
    (t + s) * (m + (if 0 < t then 1 else 0)) + (g - t - s) * m = N := by
  rcases hdisj with rfl | rfl
  · rw [if_neg (by omega : ¬ (0:Nat) < 0)]
    have h1 : (g - 0 - s) * m = g * m - s * m := by rw [Nat.sub_zero, Nat.sub_mul]
    have h2 : s * m ≤ g * m := Nat.mul_le_mul_right m (le_of_lt hsg)
    have h3 : (0 + s) * (m + 0) = s * m := by ring
    omega
  · rcases Nat.eq_zero_or_pos t with rfl | htpos
    · rw [if_neg (by omega : ¬ (0:Nat) < 0)]
      have h3 : ((0:Nat) + 0) * (m + 0) = 0 := by ring
      have h4 : (g - 0 - 0) * m = g * m := by simp
      omega
    · rw [if_pos htpos]
      have h1 : (t + 0) * (m + 1) = t * m + t := by ring
      have h2 : (g - t - 0) * m = g * m - t * m := by rw [Nat.sub_zero, Nat.sub_mul]
      have h3 : t * m ≤ g * m := Nat.mul_le_mul_right m (le_of_lt htg)
      omega

theorem groupStep_inl1 (pg : PartitionGroup) (ct1 ct2 : RowDistribution) (v d1 : Nat)
    (h1 : v < ct1.n_rows_for_all_cycles)
    (hs1 : ct1.n_rows_for_left_and_right ≠ 0)
    (hd1 : d1 = (v + ct1.n_rows_for_right) / ct1.n_rows_for_left_and_right)
    (hlo : d1 * ct1.n_rows_for_left_and_right ≤ v)
    (hhi : v < ct1.n_rows_for_left + d1 * ct1.n_rows_for_left_and_right)
    (hcnt : pg.n_partitions ≠ 0) :
    groupStep pg ct1 ct2 v = some (.inl
      ((v - d1 * ct1.n_rows_for_left_and_right + d1 * ct1.n_rows_for_left) % pg.n_partitions,
       pg.n_rows_per_partition)) := by
  subst hd1
  simp only [groupStep]
  rw [if_pos h1, if_neg hs1, if_pos ⟨hlo, hhi⟩, if_neg hcnt]

theorem groupStep_inr1 (pg : PartitionGroup) (ct1 ct2 : RowDistribution) (v d1 : Nat)
    (h1 : v < ct1.n_rows_for_all_cycles)
    (hs1 : ct1.n_rows_for_left_and_right ≠ 0)
    (hd1 : d1 = (v + ct1.n_rows_for_right) / ct1.n_rows_for_left_and_right)
    (hnm : ¬ (d1 * ct1.n_rows_for_left_and_right ≤ v ∧
      v < ct1.n_rows_for_left + d1 * ct1.n_rows_for_left_and_right)) :
    groupStep pg ct1 ct2 v = some (.inr (v - d1 * ct1.n_rows_for_left)) := by
  subst hd1
  simp only [groupStep]
  rw [if_pos h1, if_neg hs1, if_neg hnm]

theorem groupStep_inl2 (pg : PartitionGroup) (ct1 ct2 : RowDistribution) (v d2 : Nat)
    (h1 : ¬ v < ct1.n_rows_for_all_cycles)
    (hs2 : ct2.n_rows_for_left_and_right ≠ 0)
    (hd2 : d2 = (v - ct1.n_cycles * ct1.n_rows_for_left_and_right + ct2.n_rows_for_right) /
      ct2.n_rows_for_left_and_right)
    (hlo : ct1.n_cycles * ct1.n_rows_for_left_and_right +
      d2 * ct2.n_rows_for_left_and_right ≤ v)
    (hhi : v < ct1.n_cycles * ct1.n_rows_for_left_and_right +
      d2 * ct2.n_rows_for_left_and_right + ct2.n_rows_for_left)
    (hcnt : pg.n_partitions ≠ 0) :
    groupStep pg ct1 ct2 v = some (.inl
      ((v - ct1.n_cycles * ct1.n_rows_for_right - d2 * ct2.n_rows_for_left_and_right +
        d2 * ct2.n_rows_for_left) % pg.n_partitions, pg.n_rows_per_partition)) := by
  subst hd2
  simp only [groupStep]
  rw [if_neg h1, if_neg hs2, if_pos ⟨hlo, hhi⟩, if_neg hcnt]

theorem groupStep_inr2 (pg : PartitionGroup) (ct1 ct2 : RowDistribution) (v d2 : Nat)
    (h1 : ¬ v < ct1.n_rows_for_all_cycles)
    (hs2 : ct2.n_rows_for_left_and_right ≠ 0)
    (hd2 : d2 = (v - ct1.n_cycles * ct1.n_rows_for_left_and_right + ct2.n_rows_for_right) /
      ct2.n_rows_for_left_and_right)
    (hnm : ¬ (ct1.n_cycles * ct1.n_rows_for_left_and_right +
        d2 * ct2.n_rows_for_left_and_right ≤ v ∧
      v < ct1.n_cycles * ct1.n_rows_for_left_and_right +
        d2 * ct2.n_rows_for_left_and_right + ct2.n_rows_for_left)) :
    groupStep pg ct1 ct2 v = some (.inr
      (v - ct1.n_cycles * ct1.n_rows_for_left - d2 * ct2.n_rows_for_left)) := by
  subst hd2
  simp only [groupStep]
  rw [if_neg h1, if_neg hs2, if_neg hnm]

/-- Per-group behaviour of the resolution walk on generated cycle types:
an index below the group's total (own rows + later rows) either resolves in
this group (to a partition slot below `n_partitions`, with the group's row
count) or falls through with the remaining index strictly below the later
rows. -/
theorem groupStep_mkPair_spec (L count size R v : Nat) (hL : L = count * size)
    (hc : 1 ≤ count) (hv : v < L + R) :
    (∃ q, groupStep ⟨L, count, size⟩ (mkRowDistributionPair L R).1
        (mkRowDistributionPair L R).2 v = some (.inl (q, size)) ∧ q < count ∧ 1 ≤ size) ∨
    (∃ v2, groupStep ⟨L, count, size⟩ (mkRowDistributionPair L R).1
        (mkRowDistributionPair L R).2 v = some (.inr v2) ∧ v2 < R) := by
  rcases Nat.eq_zero_or_pos L with hL0 | hLpos
  · -- a zero-rows group: no left slots, fall through with `v` unchanged
    subst hL0
    rcases Nat.eq_zero_or_pos R with rfl | hR
    · omega
    · have hpair : mkRowDistributionPair 0 R = (⟨0, 0, 1, 1, 0⟩, ⟨R, 0, 1, 1, R⟩) := by
        rw [mkRowDistributionPair_eq 0 R R 0 0 1 0 (max_gcd_with_tail_zero_left R hR)]
        norm_num
      rw [hpair]
      refine Or.inr ⟨v, ?_, by omega⟩
      have hstep := groupStep_inr2 ⟨0, count, size⟩ ⟨0, 0, 1, 1, 0⟩ ⟨R, 0, 1, 1, R⟩ v (v + 1)
        (by show ¬ v < 0; omega) (by show (1:Nat) ≠ 0; omega)
        (by show v + 1 = (v - 0 * 1 + 1) / 1; norm_num)
        (by show ¬ (0 * 1 + (v + 1) * 1 ≤ v ∧ v < 0 * 1 + (v + 1) * 1 + 0); omega)
      rw [hstep]
      norm_num
  · rcases hmg : max_gcd_with_tail L R with ⟨g, ⟨m1, t1⟩, m2, t2⟩
    obtain ⟨hg, hdisj, ht1b, ht2b, hm1L, hm2R, hgcd, ht1g, ht2g, hm1⟩ :=
      max_gcd_with_tail_spec L R g m1 t1 m2 t2 hLpos hmg
    have hpair := mkRowDistributionPair_eq L R g m1 t1 m2 t2 hmg
    rw [hpair]
    set b1 := (if 0 < t1 then 1 else 0) with hb1def
    set b2 := (if 0 < t2 then 1 else 0) with hb2def
    have hb1le : b1 ≤ 1 := by rw [hb1def]; split <;> omega
    have hb2le : b2 ≤ 1 := by rw [hb2def]; split <;> omega
    set c1 := t1 + t2 with hc1def
    set l1 := m1 + b1 with hl1def
    set r1 := m2 + b2 with hr1def
    set c2 := g - t1 - t2 with hc2def
    have hLsum : c1 * l1 + c2 * m1 = L := by
      rw [hc1def, hl1def, hb1def, hc2def]
      exact mgwt_total g m1 t1 t2 L hm1L ht1g ht2g hdisj
    have hRsum : c1 * r1 + c2 * m2 = R := by
      have h0 := mgwt_total g m2 t2 t1 R hm2R ht2g ht1g hdisj.symm
      rw [hc1def, hr1def, hb2def, hc2def]
      have e1 : t1 + t2 = t2 + t1 := by omega
      have e2 : g - t1 - t2 = g - t2 - t1 := by omega
      rw [e1, e2]
      exact h0
    set s1 := l1 + r1 with hs1def
    set s2 := m1 + m2 with hs2def
    have hl1pos : 0 < l1 := by rw [hl1def]; omega
    have hs1pos : 0 < s1 := by rw [hs1def]; omega
    have hs2pos : 0 < s2 := by rw [hs2def]; omega
    have hc2pos : 0 < c2 := by rw [hc2def]; rcases hdisj with h0 | h0 <;> omega
    have hsize : 1 ≤ size := by
      rcases Nat.eq_zero_or_pos size with rfl | h
      · rw [Nat.mul_zero] at hL; omega
      · exact h
    have hs1split : c1 * s1 = c1 * l1 + c1 * r1 := by rw [hs1def, Nat.mul_add]
    have hs2split : c2 * s2 = c2 * m1 + c2 * m2 := by rw [hs2def, Nat.mul_add]
    by_cases hv1 : v < c1 * l1 + c1 * r1
    · -- the index falls inside the cycle-type-1 region
      have hvs1 : v < c1 * s1 := by omega
      have hjlt : v / s1 < c1 := (Nat.div_lt_iff_lt_mul hs1pos).mpr (by omega)
      set j := v / s1 with hjdef
      set o := v % s1 with hodef
      have hvjo : s1 * j + o = v := by rw [hjdef, hodef]; exact Nat.div_add_mod v s1
      have holt : o < s1 := by rw [hodef]; exact Nat.mod_lt v hs1pos
      have hjs : j * s1 = s1 * j := Nat.mul_comm j s1
      by_cases hol : o < l1
      · -- a "left" slot: the walk returns inside this group
        left
        have hd1 : (v + r1) / s1 = j := by
          have h1 : v + r1 = s1 * j + (o + r1) := by omega
          rw [h1, Nat.mul_add_div hs1pos, Nat.div_eq_of_lt (by omega : o + r1 < s1)]
          omega
        have hstep := groupStep_inl1 ⟨L, count, size⟩
          ⟨c1, l1, r1, s1, c1 * l1 + c1 * r1⟩ ⟨c2, m1, m2, s2, c2 * m1 + c2 * m2⟩ v j
          hv1 (by show s1 ≠ 0; omega) hd1.symm (by show j * s1 ≤ v; omega)
          (by show v < l1 + j * s1; omega) (by show count ≠ 0; omega)
        exact ⟨(v - j * s1 + j * l1) % count, hstep,
          Nat.mod_lt _ (by omega : 0 < count), hsize⟩
      · -- a "right" slot: fall through
        right
        have hr1pos : 0 < r1 := by omega
        have hmulj1 : s1 * (j + 1) = s1 * j + s1 := by ring
        have hd1 : (v + r1) / s1 = j + 1 := by
          have hler : r1 ≤ s1 := by omega
          have h1 : v + r1 = s1 * (j + 1) + (o + r1 - s1) := by omega
          rw [h1, Nat.mul_add_div hs1pos, Nat.div_eq_of_lt (by omega : o + r1 - s1 < s1)]
        have hmul2 : (j + 1) * s1 = j * s1 + s1 := by ring
        have hnm : ¬ ((j + 1) * s1 ≤ v ∧ v < l1 + (j + 1) * s1) := by omega
        have hstep := groupStep_inr1 ⟨L, count, size⟩
          ⟨c1, l1, r1, s1, c1 * l1 + c1 * r1⟩ ⟨c2, m1, m2, s2, c2 * m1 + c2 * m2⟩ v (j + 1)
          hv1 (by show s1 ≠ 0; omega) hd1.symm hnm
        refine ⟨v - (j + 1) * l1, hstep, ?_⟩
        have h1 : s1 * j = l1 * j + r1 * j := by rw [hs1def]; ring
        have h2 : (j + 1) * l1 = l1 * j + l1 := by ring
        have h3 : j * r1 = r1 * j := Nat.mul_comm j r1
        have hjr : (j + 1) * r1 ≤ c1 * r1 := Nat.mul_le_mul_right r1 (by omega)
        have h4 : (j + 1) * r1 = r1 * j + r1 := by ring
        omega
    · -- the index falls inside the cycle-type-2 region
      have hvA : v < c1 * l1 + c1 * r1 + (c2 * m1 + c2 * m2) := by omega
      set w := v - (c1 * l1 + c1 * r1) with hwdef
      have hwA2 : w < c2 * s2 := by omega
      have hjlt : w / s2 < c2 := (Nat.div_lt_iff_lt_mul hs2pos).mpr (by omega)
      set j := w / s2 with hjdef
      set o := w % s2 with hodef
      have hvjo : s2 * j + o = w := by rw [hjdef, hodef]; exact Nat.div_add_mod w s2
      have holt : o < s2 := by rw [hodef]; exact Nat.mod_lt w hs2pos
      have hjs : j * s2 = s2 * j := Nat.mul_comm j s2
      have hvw : v - c1 * s1 = w := by omega
      by_cases hol : o < m1
      · -- a "left" slot of cycle type 2
        left
        have hd2 : (v - c1 * s1 + m2) / s2 = j := by
          have h1 : v - c1 * s1 + m2 = s2 * j + (o + m2) := by omega
          rw [h1, Nat.mul_add_div hs2pos, Nat.div_eq_of_lt (by omega : o + m2 < s2)]
          omega
        have hstep := groupStep_inl2 ⟨L, count, size⟩
          ⟨c1, l1, r1, s1, c1 * l1 + c1 * r1⟩ ⟨c2, m1, m2, s2, c2 * m1 + c2 * m2⟩ v j
          hv1 (by show s2 ≠ 0; omega) hd2.symm (by show c1 * s1 + j * s2 ≤ v; omega)
          (by show v < c1 * s1 + j * s2 + m1; omega) (by show count ≠ 0; omega)
        exact ⟨(v - c1 * r1 - j * s2 + j * m1) % count, hstep,
          Nat.mod_lt _ (by omega : 0 < count), hsize⟩
      · -- a "right" slot of cycle type 2: fall through
        right
        have hm2pos : 0 < m2 := by omega
        have hmulj1 : s2 * (j + 1) = s2 * j + s2 := by ring
        have hd2 : (v - c1 * s1 + m2) / s2 = j + 1 := by
          have hler : m2 ≤ s2 := by omega
          have h1 : v - c1 * s1 + m2 = s2 * (j + 1) + (o + m2 - s2) := by omega
          rw [h1, Nat.mul_add_div hs2pos, Nat.div_eq_of_lt (by omega : o + m2 - s2 < s2)]
        have hmul2 : (j + 1) * s2 = j * s2 + s2 := by ring
        have hnm : ¬ (c1 * s1 + (j + 1) * s2 ≤ v ∧
            v < c1 * s1 + (j + 1) * s2 + m1) := by omega
        have hstep := groupStep_inr2 ⟨L, count, size⟩
          ⟨c1, l1, r1, s1, c1 * l1 + c1 * r1⟩ ⟨c2, m1, m2, s2, c2 * m1 + c2 * m2⟩ v (j + 1)
          hv1 (by show s2 ≠ 0; omega) hd2.symm hnm
        refine ⟨v - c1 * l1 - (j + 1) * m1, hstep, ?_⟩
        have h1 : s2 * j = m1 * j + m2 * j := by rw [hs2def]; ring
        have h2 : (j + 1) * m1 = m1 * j + m1 := by ring
        have h3 : j * m2 = m2 * j := Nat.mul_comm j m2
        have hjr : (j + 1) * m2 ≤ c2 * m2 := Nat.mul_le_mul_right m2 (by omega)
        have h4 : (j + 1) * m2 = m2 * j + m2 := by ring
        omega

theorem sumRows_cons (g : PartitionGroup) (rest : List PartitionGroup) :
    sumRows (g :: rest) = g.n_rows_per_group + sumRows rest := by
  simp [sumRows]

theorem offsetUpTo_cons_succ (g : PartitionGroup) (rest : List PartitionGroup) (i : Nat) :
    offsetUpTo (g :: rest) (i + 1) = g.n_partitions + offsetUpTo rest i := by
  simp [offsetUpTo]

theorem offsetUpTo_add_lt (gs : List PartitionGroup) :
    ∀ (i q : Nat) (pg : PartitionGroup), gs[i]? = some pg → q < pg.n_partitions →
      offsetUpTo gs i + q < totalPartitions gs := by
  induction gs with
  | nil => intro i q pg hget; simp at hget
  | cons g rest ih =>
    intro i q pg hget hq
    cases i with
    | zero =>
      simp only [List.getElem?_cons_zero, Option.some.injEq] at hget
      subst hget
      simp only [offsetUpTo, List.take_zero, List.map_nil, List.sum_nil, Nat.zero_add,
        totalPartitions, List.map_cons, List.sum_cons]
      omega
    | succ i =>
      simp only [List.getElem?_cons_succ] at hget
      have hrec := ih i q pg hget hq
      rw [offsetUpTo_cons_succ]
      have ht : totalPartitions (g :: rest) = g.n_partitions + totalPartitions rest := by
        simp [totalPartitions]
      omega

/-- The resolution walk over well-formed groups with their generated cycle
types always terminates in some group, with a group-local partition slot. -/
theorem getPartitionInfoLoop_total (gs : List PartitionGroup) :
    ∀ (off v : Nat),
      (∀ pg ∈ gs, 1 ≤ pg.n_partitions ∧
        pg.n_rows_per_group = pg.n_partitions * pg.n_rows_per_partition) →
      v < sumRows gs →
      ∃ (i : Nat) (pg : PartitionGroup) (q : Nat), gs[i]? = some pg ∧
        getPartitionInfoLoop v off gs (generateRowDistributionsAux (sumRows gs) gs) =
          some (off + (offsetUpTo gs i + q), pg.n_rows_per_partition) ∧
        q < pg.n_partitions ∧ 1 ≤ pg.n_rows_per_partition := by
  induction gs with
  | nil => intro off v _ hv; simp [sumRows] at hv
  | cons g rest ih =>
    intro off v hwf hv
    obtain ⟨hcnt, hrows⟩ := hwf g (List.mem_cons_self g rest)
    have hsub : sumRows (g :: rest) - g.n_rows_per_group = sumRows rest := by
      rw [sumRows_cons]; omega
    have hgen : generateRowDistributionsAux (sumRows (g :: rest)) (g :: rest) =
        mkRowDistributionPair g.n_rows_per_group (sumRows rest) ::
          generateRowDistributionsAux (sumRows rest) rest := by
      simp only [generateRowDistributionsAux, hsub]
    obtain ⟨L, count, size⟩ := g
    simp only at hcnt hrows
    have hv2 : v < L + sumRows rest := by
      rw [sumRows_cons] at hv
      simpa using hv
    rcases groupStep_mkPair_spec L count size (sumRows rest) v hrows hcnt hv2 with
      ⟨q, hq, hqlt, hsz⟩ | ⟨v2, hq, hv2lt⟩
    · refine ⟨0, ⟨L, count, size⟩, q, by simp, ?_, hqlt, hsz⟩
      rw [hgen]
      show (match groupStep ⟨L, count, size⟩ (mkRowDistributionPair L (sumRows rest)).1
          (mkRowDistributionPair L (sumRows rest)).2 v with
        | none => none
        | some (Sum.inl (q, rows)) => some (off + q, rows)
        | some (Sum.inr idx2) =>
          getPartitionInfoLoop idx2 (off + count) rest
            (generateRowDistributionsAux (sumRows rest) rest)) = _
      rw [hq]
      simp [offsetUpTo]
    · obtain ⟨i, pg, q, hget, hloop, hqlt, hsz⟩ := ih (off + count) v2
        (fun pg hpg => hwf pg (List.mem_cons_of_mem _ hpg)) hv2lt
      refine ⟨i + 1, pg, q, by simpa using hget, ?_, hqlt, hsz⟩
      rw [hgen]
      show (match groupStep ⟨L, count, size⟩ (mkRowDistributionPair L (sumRows rest)).1
          (mkRowDistributionPair L (sumRows rest)).2 v with
        | none => none
        | some (Sum.inl (q, rows)) => some (off + q, rows)
        | some (Sum.inr idx2) =>
          getPartitionInfoLoop idx2 (off + count) rest
            (generateRowDistributionsAux (sumRows rest) rest)) = _
      rw [hq]
      show getPartitionInfoLoop v2 (off + count) rest
        (generateRowDistributionsAux (sumRows rest) rest) = _
      rw [hloop, offsetUpTo_cons_succ]
      simp only [Option.some.injEq, Prod.mk.injEq]
      refine ⟨by omega, ?_⟩
      simp

theorem buildGroups_wf (parts : List Part4) :
    ∀ pg ∈ buildGroups parts, 1 ≤ pg.n_partitions ∧
      pg.n_rows_per_group = pg.n_partitions * pg.n_rows_per_partition := by
  intro pg hpg
  simp only [buildGroups, List.mem_map, List.mem_filter] at hpg
  obtain ⟨part, ⟨hmem, hpos⟩, rfl⟩ := hpg
  simp only [decide_eq_true_eq] at hpos
  exact ⟨hpos, rfl⟩

/-- Shape of a successfully constructed preset: it is
`(RowDistributionPreset.new gs).generate_row_distributions` for a list of
well-formed groups (positive partition count, rows = count * size). -/
theorem init_ok_structure (preset_name : String) (row_count base : Nat) (spec : String)
    (p : RowDistributionPreset)
    (h : _init_partition_row_distribution_preset preset_name row_count base spec = .ok p) :
    ∃ gs, p = (RowDistributionPreset.new gs).generate_row_distributions ∧
      ∀ pg ∈ gs, 1 ≤ pg.n_partitions ∧
        pg.n_rows_per_group = pg.n_partitions * pg.n_rows_per_partition := by
  unfold _init_partition_row_distribution_preset at h
  dsimp only at h
  repeat' split at h
  all_goals try exact InitOutcome.noConfusion h
  · injection h with h2
    refine ⟨_, h2.symm, ?_⟩
    intro pg hpg
    have hmem := (List.perm_insertionSort groupsOrder _).mem_iff.mp hpg
    exact buildGroups_wf _ pg hmem

/-- C1: for every preset constructed by
`_init_partition_row_distribution_preset` and every `idx < total_rows`,
`get_partition_info` returns (never reaching the exhaustion branch) a pair
whose partition index lies in the partition range of some stored group
(hence below the total partition count) and whose `rows_num` is that
group's positive `n_rows_per_partition`. -/
theorem claim_c1_partition_info_sound (preset_name : String) (row_count base : Nat)
    (spec : String) (p : RowDistributionPreset)
    (hok : _init_partition_row_distribution_preset preset_name row_count base spec = .ok p)
    (idx : Nat) (hidx : idx < p.total_rows) :
    ∃ (pidx rows i : Nat) (pg : PartitionGroup),
      p.get_partition_info idx = some (pidx, rows) ∧
      p.partition_groups[i]? = some pg ∧
      offsetUpTo p.partition_groups i ≤ pidx ∧
      pidx < offsetUpTo p.partition_groups i + pg.n_partitions ∧
      rows = pg.n_rows_per_partition ∧ 0 < rows ∧
      pidx < totalPartitions p.partition_groups := by
  obtain ⟨gs, rfl, hwf⟩ := init_ok_structure _ _ _ _ _ hok
  have htotal : ((RowDistributionPreset.new gs).generate_row_distributions).total_rows =
      sumRows gs := rfl
  have hgroups : ((RowDistributionPreset.new gs).generate_row_distributions).partition_groups =
      gs := rfl
  have hdists :
      ((RowDistributionPreset.new gs).generate_row_distributions).row_distributions =
      generateRowDistributionsAux (sumRows gs) gs := rfl
  rw [htotal] at hidx
  have hmod : idx % sumRows gs = idx := Nat.mod_eq_of_lt hidx
  obtain ⟨i, pg, q, hget, hloop, hqlt, hsz⟩ := getPartitionInfoLoop_total gs 0 idx hwf hidx
  rw [hgroups]
  refine ⟨offsetUpTo gs i + q, pg.n_rows_per_partition, i, pg, ?_, hget,
    Nat.le_add_right _ _, by omega, rfl, hsz, offsetUpTo_add_lt gs i q pg hget hqlt⟩
  unfold RowDistributionPreset.get_partition_info
  rw [htotal, hgroups, hdists, if_neg (by omega : ¬ sumRows gs = 0), hmod, hloop]
  simp

theorem claim_c1_partition_info_sound_witness :
    ∃ p, _init_partition_row_distribution_preset "foo" 1000 13 "100:1" = .ok p ∧
      75 < p.total_rows ∧
      (∃ (pidx rows i : Nat) (pg : PartitionGroup),
        p.get_partition_info 75 = some (pidx, rows) ∧
        p.partition_groups[i]? = some pg ∧
        offsetUpTo p.partition_groups i ≤ pidx ∧
        pidx < offsetUpTo p.partition_groups i + pg.n_partitions ∧
        rows = pg.n_rows_per_partition ∧ 0 < rows ∧
        pidx < totalPartitions p.partition_groups) := by
  refine ⟨_, rfl, by decide, ?_⟩
  exact claim_c1_partition_info_sound "foo" 1000 13 "100:1" _ rfl 75 (by decide)

/-! ### Post-reconciliation row total (claim C2) -/

theorem partsSum_cons (q : Part4) (rest : List Part4) :
    partsSum (q :: rest) = q.2.1 * q.2.2.1 + partsSum rest := by
  simp [partsSum]

theorem partsSum_append (l1 l2 : List Part4) :
    partsSum (l1 ++ l2) = partsSum l1 + partsSum l2 := by
  simp [partsSum]

theorem partsSum_perm {l1 l2 : List Part4} (h : l1.Perm l2) : partsSum l1 = partsSum l2 :=
  (h.map _).sum_eq

theorem checkedSub_some (a b c : Nat) (h : checkedSub a b = some c) : b ≤ a ∧ c = a - b := by
  unfold checkedSub at h
  by_cases hba : b ≤ a
  · rw [if_pos hba] at h
    injection h with h2
    exact ⟨hba, h2.symm⟩
  · rw [if_neg hba] at h
    exact Option.noConfusion h

/-- The combine loop counts exactly the rows of the partitions it collects. -/
theorem combinePartitions_actual (partn_counts partn_sizes : List (List Char × F64 × Nat))
    (pm : List (List Char × F64 × F64)) :
    (combinePartitions partn_counts partn_sizes pm).2 =
      partsSum (combinePartitions partn_counts partn_sizes pm).1 := by
  suffices h : ∀ (l : List (List Char × F64 × Nat)) (acc : List Part4 × Nat),
      (l.foldl (fun acc e =>
        match assocFind partn_sizes e.1, assocFind pm e.1 with
        | some sz, some kv => (acc.1 ++ [(kv.1, e.2.2, sz.2, kv.2)], acc.2 + e.2.2 * sz.2)
        | _, _ => acc) acc).2 + partsSum acc.1 =
      partsSum ((l.foldl (fun acc e =>
        match assocFind partn_sizes e.1, assocFind pm e.1 with
        | some sz, some kv => (acc.1 ++ [(kv.1, e.2.2, sz.2, kv.2)], acc.2 + e.2.2 * sz.2)
        | _, _ => acc) acc).1) + acc.2 by
    have h2 := h partn_counts ([], 0)
    simp only [partsSum, List.map_nil, List.sum_nil, Nat.add_zero] at h2
    rw [combinePartitions, h2]
    rfl
  intro l
  induction l with
  | nil => intro acc; simp only [List.foldl_nil]; omega
  | cons e rest ih =>
    intro acc
    simp only [List.foldl_cons]
    rcases h1 : assocFind partn_sizes e.1 with _ | sz
    · simpa [h1] using ih acc
    · rcases h2 : assocFind pm e.1 with _ | kv
      · simpa [h1, h2] using ih acc
      · have ih2 := ih (acc.1 ++ [(kv.1, e.2.2, sz.2, kv.2)], acc.2 + e.2.2 * sz.2)
        simp only [h1, h2]
        dsimp only at ih2
        rw [partsSum_append] at ih2
        have hone : partsSum [(kv.1, e.2.2, sz.2, kv.2)] = e.2.2 * sz.2 := by
          simp [partsSum]
        rw [hone] at ih2
        omega

/-- The reconciliation branches (lines 314-340) leave
`partsSum + row_count_diff = row_count` whenever they do not abort. -/
theorem adjustPartitionsDiff_sum (rc pc : Nat) (parts : List Part4) (actual : Nat)
    (hactual : partsSum parts = actual)
    (parts2 : List Part4) (pc2 actual2 rcd : Nat)
    (h : adjustPartitionsDiff rc pc parts actual = some (parts2, pc2, actual2, rcd)) :
    partsSum parts2 + rcd = rc := by
  unfold adjustPartitionsDiff at h
  by_cases h1 : actual < rc
  · rw [if_pos h1] at h
    rcases parts with _ | ⟨⟨pct, cnt, sz, mult⟩, rest⟩
    · exact Option.noConfusion h
    · dsimp only at h
      rw [partsSum_cons] at hactual
      dsimp only at hactual
      by_cases hs : sz = 0
      · rw [if_pos hs] at h
        exact Option.noConfusion h
      · rw [if_neg hs] at h
        by_cases hd : 0 < (rc - actual) / sz
        · rw [if_pos hd] at h
          simp only [Option.some.injEq, Prod.mk.injEq] at h
          obtain ⟨hp2, -, -, hr⟩ := h
          subst hp2
          subst hr
          rw [partsSum_cons]
          dsimp only
          have hds : (rc - actual) / sz * sz ≤ rc - actual := Nat.div_mul_le_self _ _
          have hadd : (cnt + (rc - actual) / sz) * sz =
              cnt * sz + (rc - actual) / sz * sz := by ring
          omega
        · rw [if_neg hd] at h
          simp only [Option.some.injEq, Prod.mk.injEq] at h
          obtain ⟨hp2, -, -, hr⟩ := h
          subst hp2
          subst hr
          rw [partsSum_cons]
          dsimp only
          omega
  · rw [if_neg h1] at h
    by_cases h2 : rc < actual
    · rw [if_pos h2] at h
      rcases parts with _ | ⟨⟨pct, cnt, sz, mult⟩, rest⟩
      · exact Option.noConfusion h
      · dsimp only at h
        rw [partsSum_cons] at hactual
        dsimp only at hactual
        by_cases hs : sz = 0
        · rw [if_pos hs] at h
          exact Option.noConfusion h
        · rw [if_neg hs] at h
          by_cases hd : 0 < (if (actual - rc) % sz ≠ 0 then (actual - rc) / sz + 1
              else (actual - rc) / sz)
          · rw [if_pos hd] at h
            rcases hc1 : checkedSub pc (if (actual - rc) % sz ≠ 0 then (actual - rc) / sz + 1
                else (actual - rc) / sz) with _ | pc2v
            · rw [hc1] at h
              exact Option.noConfusion h
            · rw [hc1] at h
              simp only [Option.bind_eq_bind, Option.some_bind] at h
              rcases hc2 : checkedSub cnt (if (actual - rc) % sz ≠ 0 then (actual - rc) / sz + 1
                  else (actual - rc) / sz) with _ | c0
              · rw [hc2] at h
                exact Option.noConfusion h
              · rw [hc2] at h
                simp only [Option.bind_eq_bind, Option.some_bind] at h
                rcases hc3 : checkedSub actual ((if (actual - rc) % sz ≠ 0 then
                    (actual - rc) / sz + 1 else (actual - rc) / sz) * sz) with _ | a1
                · rw [hc3] at h
                  exact Option.noConfusion h
                · rw [hc3] at h
                  simp only [Option.bind_eq_bind, Option.some_bind] at h
                  rcases hc4 : checkedSub a1 ((if (actual - rc) % sz ≠ 0 then
                      (actual - rc) / sz + 1 else (actual - rc) / sz) * sz) with _ | a2
                  · rw [hc4] at h
                    exact Option.noConfusion h
                  · rw [hc4] at h
                    simp only [Option.bind_eq_bind, Option.some_bind] at h
                    rcases hc5 : checkedSub ((if (actual - rc) % sz ≠ 0 then
                        (actual - rc) / sz + 1 else (actual - rc) / sz) * sz)
                        (actual - rc) with _ | rcdv
                    · rw [hc5] at h
                      exact Option.noConfusion h
                    · rw [hc5] at h
                      simp only [Option.bind_eq_bind, Option.some_bind, Option.some.injEq, Prod.mk.injEq] at h
                      obtain ⟨hp2, -, -, hr⟩ := h
                      subst hp2
                      subst hr
                      obtain ⟨hdc, rfl⟩ := checkedSub_some _ _ _ hc2
                      obtain ⟨hdr, rfl⟩ := checkedSub_some _ _ _ hc5
                      rw [partsSum_cons]
                      dsimp only
                      have hsub : (cnt - (if (actual - rc) % sz ≠ 0 then (actual - rc) / sz + 1
                          else (actual - rc) / sz)) * sz =
                        cnt * sz - (if (actual - rc) % sz ≠ 0 then (actual - rc) / sz + 1
                          else (actual - rc) / sz) * sz := Nat.sub_mul _ _ _
                      have hle : (if (actual - rc) % sz ≠ 0 then (actual - rc) / sz + 1
                          else (actual - rc) / sz) * sz ≤ cnt * sz :=
                        Nat.mul_le_mul_right sz hdc
                      omega
          · exfalso
            by_cases hm : (actual - rc) % sz ≠ 0
            · rw [if_pos hm] at hd
              exact hd (Nat.succ_pos _)
            · rw [if_neg hm] at hd
              push_neg at hm
              have hq : (actual - rc) / sz = 0 := Nat.eq_zero_of_not_pos hd
              have hdm := Nat.div_add_mod (actual - rc) sz
              rw [hq, hm, Nat.mul_zero] at hdm
              omega
    · rw [if_neg h2] at h
      simp only [Option.some.injEq, Prod.mk.injEq] at h
      obtain ⟨hp2, -, -, hr⟩ := h
      subst hp2
      subst hr
      omega

theorem bumpSameSize_sum (d : Nat) : ∀ (parts parts2 : List Part4),
    bumpSameSize parts d = some parts2 → partsSum parts2 = partsSum parts + d := by
  intro parts
  induction parts with
  | nil => intro parts2 h; exact Option.noConfusion h
  | cons q rest ih =>
    intro parts2 h
    unfold bumpSameSize at h
    by_cases hs : q.2.2.1 = d
    · rw [if_pos hs] at h
      injection h with h2
      subst h2
      rw [partsSum_cons, partsSum_cons]
      dsimp only
      have hmul : (q.2.1 + 1) * q.2.2.1 = q.2.1 * q.2.2.1 + q.2.2.1 := by ring
      omega
    · rw [if_neg hs] at h
      rcases hb : bumpSameSize rest d with _ | rest2
      · rw [hb] at h
        exact Option.noConfusion h
      · rw [hb] at h
        injection h with h2
        subst h2
        rw [partsSum_cons, partsSum_cons]
        have hrec := ih rest2 hb
        omega

theorem addShortfallStep_sum (parts : List Part4) (pc actual rcd : Nat) :
    partsSum (addShortfallStep parts pc actual rcd).1 = partsSum parts + rcd := by
  unfold addShortfallStep
  by_cases hr : 0 < rcd
  · rw [if_pos hr]
    rcases hb : bumpSameSize parts rcd with _ | parts2
    · dsimp only
      rw [partsSum_append]
      simp [partsSum]
    · dsimp only
      exact bumpSameSize_sum rcd parts parts2 hb
  · rw [if_neg hr]
    dsimp only
    omega

theorem buildGroups_sum (parts : List Part4) :
    ((buildGroups parts).map (fun pg => pg.n_rows_per_group)).sum = partsSum parts := by
  induction parts with
  | nil => simp [buildGroups, partsSum]
  | cons q rest ih =>
    unfold buildGroups at ih ⊢
    rw [partsSum_cons]
    by_cases hq : 0 < q.2.1
    · rw [List.filter_cons_of_pos (by simpa using hq)]
      simp only [List.map_cons, List.sum_cons]
      rw [ih]
    · rw [List.filter_cons_of_neg (by simpa using hq), ih]
      have h0 : q.2.1 = 0 := by omega
      rw [h0]
      simp

/-- C2: for every preset the constructor returns, the sum of
`n_rows_per_group` over the stored partition groups equals the requested
`row_count` exactly; equivalently the stored `total_rows` equals
`row_count`. -/
theorem claim_c2_row_total (preset_name : String) (row_count base : Nat) (spec : String)
    (p : RowDistributionPreset)
    (hok : _init_partition_row_distribution_preset preset_name row_count base spec = .ok p) :
    (p.partition_groups.map (fun pg => pg.n_rows_per_group)).sum = row_count ∧
    p.total_rows = row_count := by
  unfold _init_partition_row_distribution_preset at hok
  dsimp only at hok
  repeat' split at hok
  all_goals try exact InitOutcome.noConfusion hok
  rename_i hn hr hb x1 pmv sv hparse htol x2 parts2 pc2 actual2 rcd hadj
  injection hok with h2
  subst h2
  have hact : partsSum (List.insertionSort partitionsOrder
      (combinePartitions (partnCountsOf pmv (partnCountOf row_count (partnCycleSizeOf base pmv)))
        (partnSizesOf base pmv) pmv).1) =
      (combinePartitions (partnCountsOf pmv (partnCountOf row_count (partnCycleSizeOf base pmv)))
        (partnSizesOf base pmv) pmv).2 := by
    rw [partsSum_perm (List.perm_insertionSort partitionsOrder _)]
    exact (combinePartitions_actual _ _ _).symm
  have hadjsum := adjustPartitionsDiff_sum row_count _ _ _ hact parts2 pc2 actual2 rcd hadj
  have hshort := addShortfallStep_sum parts2 pc2 actual2 rcd
  have hsum : ((List.insertionSort groupsOrder (buildGroups (List.insertionSort partitionsOrder
      (addShortfallStep parts2 pc2 actual2 rcd).1))).map
        (fun pg => pg.n_rows_per_group)).sum = row_count := by
    rw [((List.perm_insertionSort groupsOrder _).map _).sum_eq, buildGroups_sum,
      partsSum_perm (List.perm_insertionSort partitionsOrder _), hshort, hadjsum]
  exact ⟨hsum, hsum⟩

theorem claim_c2_row_total_witness :
    ∃ p, _init_partition_row_distribution_preset "foo" 1000 13 "100:1" = .ok p ∧
      ((p.partition_groups.map (fun pg => pg.n_rows_per_group)).sum = 1000 ∧
        p.total_rows = 1000) := by
  refine ⟨_, rfl, ?_⟩
  exact claim_c2_row_total "foo" 1000 13 "100:1" _ rfl

/-- C3: constructing a preset with `row_count = 1000`,
`rows_per_partitions_base = 13` and group spec `"100:1"` yields exactly the
partition groups `{988 rows, 76 partitions, 13 each}` and
`{12 rows, 1 partition, 12 each}` in that stored order, and on this preset
`get_partition_info` maps idx 75 to partition 75, idx 76 to partition 0 and
idx 999 to partition 76. -/
theorem claim_c3_scenario_b :
    ∃ p, _init_partition_row_distribution_preset "foo" 1000 13 "100:1" = .ok p ∧
      p.partition_groups = ([⟨988, 76, 13⟩, ⟨12, 1, 12⟩] : List PartitionGroup) ∧
      (p.get_partition_info 75).map Prod.fst = some 75 ∧
      (p.get_partition_info 76).map Prod.fst = some 0 ∧
      (p.get_partition_info 999).map Prod.fst = some 76 := by
  refine ⟨_, rfl, ?_, ?_, ?_, ?_⟩ <;> decide

/-- C6 counterexample: the claim states that a group-spec pair with
malformed syntax makes construction fail, but the pair `"50"` (no `:`
separator) in `"100:1,50"` is silently skipped and construction
succeeds. -/
theorem claim_c6_counterexample :
    ∃ p, _init_partition_row_distribution_preset "foo" 1000 10 "100:1,50" = .ok p :=
  ⟨_, rfl⟩

/-- C6 (amended): construction fails with the single validation-error kind
(`Error`, carrying a human-readable cause) for: an empty preset name;
`row_count < 1`; `rows_per_partitions_base < 1`; a whitespace-stripped pair
equal to the normalized key of an earlier pair (duplicate detection); a
colon-separated pair whose percent or multiplier does not parse as a
number; and a parsed-percent sum differing from 100 by more than 0.01.
Pairs lacking a `:` separator are silently skipped rather than rejected
(conjunct on `parsePairsLoop` errors: the only parse-stage errors are the
duplicate and non-numeric ones).  In every error case the registry is
untouched. -/
theorem claim_c6_validation_errors (preset_name : String)
    (row_count rows_per_partitions_base : Nat) (rows_per_partitions_groups : String) :
    (preset_name = "" →
      _init_partition_row_distribution_preset preset_name row_count
        rows_per_partitions_base rows_per_partitions_groups =
        .err (.Error "init_partition_row_distribution_preset: 'preset_name' cannot be empty")) ∧
    (preset_name ≠ "" → row_count < 1 →
      _init_partition_row_distribution_preset preset_name row_count
        rows_per_partitions_base rows_per_partitions_groups =
        .err (.Error
          "init_partition_row_distribution_preset: 'row_count' cannot be less than 1")) ∧
    (preset_name ≠ "" → ¬ row_count < 1 → rows_per_partitions_base < 1 →
      _init_partition_row_distribution_preset preset_name row_count
        rows_per_partitions_base rows_per_partitions_groups =
        .err (.Error ("init_partition_row_distribution_preset: " ++
          "'rows_per_partitions_base' cannot be less than 1"))) ∧
    (∀ e, preset_name ≠ "" → ¬ row_count < 1 → ¬ rows_per_partitions_base < 1 →
      parsePairsLoop (splitOnChar ','
          (if rows_per_partitions_groups = "" then "100:1"
           else rows_per_partitions_groups).data) [] [] (F64.ofNat 0) = .error e →
      _init_partition_row_distribution_preset preset_name row_count
        rows_per_partitions_base rows_per_partitions_groups = .err e) ∧
    (∀ pm s, preset_name ≠ "" → ¬ row_count < 1 → ¬ rows_per_partitions_base < 1 →
      parsePairsLoop (splitOnChar ','
          (if rows_per_partitions_groups = "" then "100:1"
           else rows_per_partitions_groups).data) [] [] (F64.ofNat 0) = .ok (pm, s) →
      F64.blt ⟨1, 100⟩ (F64.abs (F64.sub s (F64.ofNat 100))) = true →
      _init_partition_row_distribution_preset preset_name row_count
        rows_per_partitions_base rows_per_partitions_groups =
        .err (.Error ("init_partition_row_distribution_preset: summary of partition " ++
          "percentage must be '100'. Got '" ++ String.mk (F64.fmt s) ++ "' instead"))) ∧
    (∀ (pair : List Char) rest dump acc s, (pair.filter (fun c => c ≠ ' ')) ∈ dump →
      parsePairsLoop (pair :: rest) dump acc s =
        .error (.Error ("init_partition_row_distribution_preset: found duplicates pairs - '" ++
          String.mk (pair.filter (fun c => c ≠ ' ')) ++ "'"))) ∧
    (∀ (pair : List Char) rest dump acc s key value,
      ¬ (pair.filter (fun c => c ≠ ' ')) ∈ dump →
      (splitOnChar ':' (pair.filter (fun c => c ≠ ' '))).get? 0 = some key →
      (splitOnChar ':' (pair.filter (fun c => c ≠ ' '))).get? 1 = some value →
      (parseF64 key = none ∨ parseF64 value = none) →
      parsePairsLoop (pair :: rest) dump acc s =
        .error (.Error ("init_partition_row_distribution_preset: Wrong sub-value provided " ++
          "in the 'rows_per_partitions_groups' parameter: '" ++
          String.mk (pair.filter (fun c => c ≠ ' ')) ++
          "'. It must be set of integer pairs separated with a ':' symbol. " ++
          "Example: '49.1:1,49:2,1.9:2.5'"))) ∧
    (∀ e reg,
      _init_partition_row_distribution_preset preset_name row_count
        rows_per_partitions_base rows_per_partitions_groups = .err e →
      (init_partition_row_distribution_preset reg preset_name row_count
        rows_per_partitions_base rows_per_partitions_groups).2 = reg) := by
  refine ⟨?_, ?_, ?_, ?_, ?_, ?_, ?_, ?_⟩
  · intro h
    simp [_init_partition_row_distribution_preset, h]
  · intro h1 h2
    simp [_init_partition_row_distribution_preset, h1, h2]
  · intro h1 h2 h3
    simp [_init_partition_row_distribution_preset, h1, h2, h3]
  · intro e h1 h2 h3 h4
    simp [_init_partition_row_distribution_preset, h1, h2, h3, h4]
  · intro pm s h1 h2 h3 h4 h5
    simp [_init_partition_row_distribution_preset, h1, h2, h3, h4, h5]
  · intro pair rest dump acc s hmem
    simp only [ne_eq, decide_not] at hmem
    simp [parsePairsLoop, hmem]
  · intro pair rest dump acc s key value hmem hk hv hp
    simp only [ne_eq, decide_not] at hmem hk hv
    simp only [List.get?_eq_getElem?] at hk hv
    rcases hp with hp | hp
    · simp [parsePairsLoop, hmem, hk, hv, hp]
    · rcases hk2 : parseF64 key with _ | k <;>
        simp [parsePairsLoop, hmem, hk, hv, hk2, hp]
  · intro e reg h
    simp [init_partition_row_distribution_preset, h]

theorem claim_c6_validation_errors_witness :
    ("" : String) = "" ∧
    _init_partition_row_distribution_preset "" 1000 10 "100:1" =
      .err (.Error "init_partition_row_distribution_preset: 'preset_name' cannot be empty") :=
  ⟨rfl, (claim_c6_validation_errors "" 1000 10 "100:1").1 rfl⟩

theorem claim_c9_validation_range_witness :
    (query_check_validation (some ⟨10, 10, ""⟩) 8 ≠ none) ∧ ((8 : Nat) < 10 ∨ (10 : Nat) < 8) :=
  ⟨(claim_c9_validation_range ⟨10, 10, ""⟩ 8).1.mpr (by decide), by decide⟩

end Latte
